import Mathlib

/-!
# go-errs: structured HTTP errors

A shallow embedding of package `errs` (`kinds.go`, `httpError.go`, `debug.go`)
and the properties of its kind table, its builder `E`, the stack coalescing of
`populateStack`, the name abbreviation loop of `printStack` and the chain walks
`Error`, `Status` and `Message`.

Modelling conventions

* `kind` is Go's `uint8`; it is embedded as `Nat` (no arithmetic is ever done
  on a kind, so no wrap-around can occur). Every statement below that
  quantifies over kinds holds for all naturals, in particular for `0..255`.
* A Go `string` / `bytes.Buffer` is a `String`; `b.Len() == 0` is
  `b.length = 0` (a string has no bytes iff it has no characters).
* A Go `error` interface value is a `GoError`: `nil`, a non-nil `*HTTPError`
  (the pointee is stored by value, so every mutation through the pointer is an
  explicit rebuild of the enclosing value), or any other error, of which only
  the text returned by its `Error()` method is observable here.
* `uintptr` program counters are `Nat`; the result of `callers()` (a snapshot
  of the Go runtime stack) is a parameter of `populateStack` and `E`.
* A panic is the `Except.error` result of `E`.
* `E` dereferences every `*HTTPError` it is given, so a nil `*HTTPError` is
  never stored in an `err` field: `GoError.http` always carries a value.
* What `E` does to the struct behind a pointer argument is stated on a second
  version of the builder over an explicit heap (`Mem.E`), proved to compute the
  same error as `E`.
-/

namespace errs

/-! ## kinds.go -/

/-- Go: `type kind uint8`. -/
abbrev kind := Nat

def UnauthorizedCredential : kind := 1
def InvalidCredential : kind := 2
def RepositoryError : kind := 3
def SupplierError : kind := 4
def ValidationError : kind := 5
def JSONError : kind := 6
def InvalidInput : kind := 7
def NotFound : kind := 8
def Unprocessable : kind := 9
def CacheMalfunction : kind := 10

/-- The `net/http` status constants used by `HttpStatus`. -/
def StatusBadRequest : Nat := 400
def StatusUnauthorized : Nat := 401
def StatusNotFound : Nat := 404
def StatusInternalServerError : Nat := 500
def StatusBadGateway : Nat := 502

/-- Go: `func (k kind) String() string`. -/
def kind.String (k : kind) : String :=
  if k = UnauthorizedCredential then "UNAUTHORIZED_CREDENTIAL"
  else if k = InvalidCredential then "INVALID_CREDENTIAL"
  else if k = RepositoryError then "REPOSITORY_ERROR"
  else if k = SupplierError then "SUPPLIER_ERROR"
  else if k = ValidationError then "VALIDATION_ERROR"
  else if k = JSONError then "JSON_ERROR"
  else if k = InvalidInput then "INVALID_INPUT"
  else if k = NotFound then "NOT_FOUND"
  else if k = CacheMalfunction then "CACHE_ERROR"
  else "UNEXPECTED_ERROR"

/-- Go: `func (k kind) HttpStatus() int`. -/
def kind.HttpStatus (k : kind) : Nat :=
  if k = InvalidCredential then StatusBadRequest
  else if k = UnauthorizedCredential then StatusUnauthorized
  else if k = RepositoryError then StatusInternalServerError
  else if k = SupplierError then StatusBadGateway
  else if k = ValidationError then StatusBadRequest
  else if k = JSONError then StatusInternalServerError
  else if k = InvalidInput then StatusBadRequest
  else if k = NotFound then StatusNotFound
  else if k = CacheMalfunction then StatusInternalServerError
  else StatusInternalServerError

/-! ## httpError.go: the data model -/

/-- Go: `type Message string`. -/
abbrev Message := String

/-- Go: `type Params interface{}`; a non-nil value of any dynamic type that is
neither a `Message`, a `kind` nor an `error`. -/
inductive Params where
  | str (s : String)
  | int (n : Int)
  | other (dump : String)
deriving DecidableEq, Repr

mutual
/-- Go: `type HTTPError struct { kind; message; err; params; stack }`, the
embedded `stack` being its one field `callers []uintptr`. -/
inductive HTTPError where
  | mk (kind : kind) (message : Message) (err : GoError)
      (params : Option Params) (callers : List Nat)
/-- A value of Go's `error` interface. -/
inductive GoError where
  | nil
  | http (p : HTTPError)
  | other (text : String)
end

deriving instance DecidableEq for HTTPError, GoError

/-- Go: `err == nil` on an interface value. -/
def GoError.isNil : GoError → Bool
  | .nil => true
  | _ => false

def HTTPError.kind : HTTPError → kind
  | .mk k _ _ _ _ => k

def HTTPError.message : HTTPError → Message
  | .mk _ m _ _ _ => m

def HTTPError.err : HTTPError → GoError
  | .mk _ _ e _ _ => e

def HTTPError.params : HTTPError → Option Params
  | .mk _ _ _ ps _ => ps

def HTTPError.callers : HTTPError → List Nat
  | .mk _ _ _ _ cs => cs

/-- Go: `var separator = ":\n\t"` (debug.go). -/
def separator : String := ":\n\t"

/-- Go: `func pad(b *bytes.Buffer, str string)`; the buffer is returned. -/
def pad (b : String) (str : String) : String :=
  if b.length = 0 then b else b ++ str

/-- Go: `func (e *HTTPError) isZero() bool`. -/
def HTTPError.isZero (e : HTTPError) : Bool :=
  e.kind == 0 && e.message == "" && e.err.isNil

/-- Go: `func (e *HTTPError) Error() string`. The buffer `b` is threaded
through the three `if` blocks in source order. -/
def HTTPError.Error : HTTPError → String
  | .mk k m e _ _ =>
    let b := ""
    let b := if k ≠ 0 then pad b ": " ++ kind.String k else b
    let b := if m ≠ "" then pad b ": " ++ m else b
    let b :=
      match e with
      | .nil => b
      | .http prevErr =>
        if !prevErr.isZero then pad b separator ++ HTTPError.Error prevErr else b
      | .other text => pad b ": " ++ text
    if b.length = 0 then "no error" else b

/-- The `for copy.err != nil` loop of `Status`; the argument is `copy`. -/
def HTTPError.statusLoop (he : HTTPError) : HTTPError → Nat
  | .mk _ _ .nil _ _ => kind.HttpStatus he.kind
  | .mk _ _ (.http err) _ _ =>
    if err.kind ≠ 0 then kind.HttpStatus err.kind else HTTPError.statusLoop he err
  | .mk _ _ (.other _) _ _ => kind.HttpStatus he.kind

/-- Go: `func (he *HTTPError) Status() int`. -/
def HTTPError.Status (he : HTTPError) : Nat :=
  if he.kind ≠ 0 then kind.HttpStatus he.kind else HTTPError.statusLoop he he

/-- The `for copy.err != nil` loop of `Message`; the arguments are `copy` and
the buffer. -/
def HTTPError.messageLoop : HTTPError → String → String
  | .mk _ _ .nil _ _, b => b
  | .mk _ _ (.http err) _ _, b => HTTPError.messageLoop err (pad b ": " ++ err.message)
  | .mk _ _ (.other text) _ _, b => pad b ": " ++ text

/-- Go: `func (he *HTTPError) Message() string`. -/
def HTTPError.Message (he : HTTPError) : String :=
  let b := ""
  let b := b ++ he.message
  HTTPError.messageLoop he b

/-! ## debug.go: stack capture and coalescing -/

/-- The comparison loop of `populateStack`:
`for ; i < len(e.callers) && i < len(e2.callers); i++ { if e.callers[len(e.callers)-1-i] != e2.callers[len(e2.callers)-1-i] { break }; ok = true }`.
`ec` is `e.callers`, `e2c` is `e2.callers`; the result is the final `(i, ok)`.
The first argument bounds the number of iterations; `populateStack` passes
`len(e.callers)`, which the loop condition never lets `i` exceed. -/
def suffixLoop (ec e2c : List Nat) : Nat → Nat → Bool → Nat × Bool
  | 0, i, ok => (i, ok)
  | fuel + 1, i, ok =>
    if h : i < ec.length ∧ i < e2c.length then
      if ec[ec.length - 1 - i] ≠ e2c[e2c.length - 1 - i] then (i, ok)
      else suffixLoop ec e2c fuel (i + 1) true
    else (i, ok)

/-- Go: `func (e *HTTPError) populateStack()`. `fresh` is the value returned
by `callers()`. `e2` points at the copy stored in `e.err`, so clearing
`e2.callers` rebuilds `e.err`. -/
def HTTPError.populateStack (e : HTTPError) (fresh : List Nat) : HTTPError :=
  match e with
  | .mk k m err ps _ =>
    let callers := fresh
    match err with
    | .http (.mk k2 m2 err2 ps2 callers2) =>
      let (i, ok) := suffixLoop callers callers2 callers.length 0 false
      if ok then
        let head := callers2.take (callers2.length - i)
        let tail := callers
        .mk k m (.http (.mk k2 m2 err2 ps2 [])) ps (head ++ tail)
      else .mk k m (.http (.mk k2 m2 err2 ps2 callers2)) ps callers
    | _ => .mk k m err ps callers

/-- Go: `strings.IndexAny(s, chars)`: the index of the first element of `s`
that occurs in `chars`, or -1. A string is taken as the list of its elements
(bytes in Go; the separators searched for are ASCII). -/
def IndexAny (s : List Char) (chars : List Char) : Int :=
  match s with
  | [] => -1
  | c :: rest =>
    if c ∈ chars then 0
    else
      let j := IndexAny rest chars
      if j < 0 then -1 else j + 1

/-- Go: `strings.HasPrefix(s, pre)`. -/
def HasPrefix (s pre : List Char) : Bool :=
  pre.isPrefixOf s

/-- The loop of `printStack` that finds the part of `name` shared with the
previously printed name `prev`:
`for { j := strings.IndexAny(name[trim:], "./"); if j < 0 { break }; if !strings.HasPrefix(prev, name[:j+trim]) { break }; trim += j + 1 }`.
The result is the final `trim`; the first argument bounds the number of
iterations and `none` reports that the bound was reached. -/
def trimLoop (name prev : List Char) : Nat → Nat → Option Nat
  | 0, _ => none
  | fuel + 1, trim =>
    let j := IndexAny (name.drop trim) ['.', '/']
    if j < 0 then some trim
    else if !HasPrefix prev (name.take (j.toNat + trim)) then some trim
    else trimLoop name prev fuel (trim + (j.toNat + 1))

/-! ## httpError.go: the builder -/

/-- One element of the variadic `args ...interface{}` of `E`, by the case of
the type switch it selects. -/
inductive Arg where
  -- a `Message`
  | message (m : Message)
  -- a `kind`
  | kind (k : kind)
  -- a `*HTTPError`; `none` is the nil pointer
  | httpError (p : Option HTTPError)
  -- a non-nil value of any other type implementing `error`
  | error (text : String)
  -- a non-nil value of any other type (every type implements `Params`)
  | params (v : Params)
  -- the nil interface value, which matches no case of the switch
  | nil

/-- The body of `for _, arg := range args { switch arg := arg.(type) ... }`
for one argument. -/
def assignArg (e : HTTPError) : Arg → Except String HTTPError
  | .message arg => .ok (.mk e.kind arg e.err e.params e.callers)
  | .kind arg => .ok (.mk arg e.message e.err e.params e.callers)
  | .httpError (some arg) =>
    let copy := arg
    .ok (.mk e.kind e.message (.http copy) e.params e.callers)
  | .httpError none => .error "invalid memory address or nil pointer dereference"
  | .error arg => .ok (.mk e.kind e.message (.other arg) e.params e.callers)
  | .params arg => .ok (.mk e.kind e.message e.err (some arg) e.callers)
  | .nil => .error "unknown type <nil>, value <nil> in error call"

/-- The `range args` loop of `E`. -/
def assignArgs (e : HTTPError) : List Arg → Except String HTTPError
  | [] => .ok e
  | arg :: rest =>
    match assignArg e arg with
    | .ok e1 => assignArgs e1 rest
    | .error msg => .error msg

/-- The duplicate suppression at the end of `E` (`prev, ok := e.err.(*HTTPError)`
and the two `if`s, in source order: message first, then kind). -/
def dedup (e : HTTPError) : HTTPError :=
  match e.err with
  | .http prev =>
    let prev := if prev.message = e.message then
      HTTPError.mk prev.kind "" prev.err prev.params prev.callers else prev
    let prev := if prev.kind = e.kind then
      HTTPError.mk 0 prev.message prev.err prev.params prev.callers else prev
    .mk e.kind e.message (.http prev) e.params e.callers
  | _ => e

/-- Go: `func E(args ...interface{}) error`. `fresh` is what `callers()`
returns inside `populateStack`. The result is the `*HTTPError` returned, or the
panic. -/
def E (args : List Arg) (fresh : List Nat) : Except String HTTPError :=
  if args.length = 0 then .error "call to errors.E with no arguments"
  else
    match assignArgs (.mk 0 "" .nil none []) args with
    | .error msg => .error msg
    | .ok e =>
      let e := e.populateStack fresh
      .ok (dedup e)

/-! ## httpError.go and debug.go on an explicit heap

The definitions above store the pointee of a `*HTTPError` by value. To speak
about what `E` does to the struct its argument points to, the same code is
given here over a heap of `HTTPError` structs addressed by index, where
`&HTTPError{}` and `&copy` allocate at the end and every assignment through a
pointer is an update of the cell it points to. `Mem.E_refines` below shows that
the two versions compute the same error. -/

/-- A value of Go's `error` interface in memory: nil, a non-nil `*HTTPError`
(the address of its cell), or any other error. -/
inductive ErrRef where
  | nil
  | ptr (addr : Nat)
  | other (text : String)
deriving DecidableEq, Repr

/-- Go: `type HTTPError struct`, as a cell of the heap. -/
structure Cell where
  kind : kind
  message : Message
  err : ErrRef
  params : Option Params
  callers : List Nat
deriving DecidableEq, Repr

/-- The heap: the cell at index `a` is the struct at address `a`. -/
abbrev Heap := List Cell

/-- An assignment through the pointer `a`: the cell at `a` becomes `f` of it. -/
def Heap.update (h : Heap) (a : Nat) (f : Cell → Cell) : Heap :=
  match h[a]? with
  | some c => h.set a (f c)
  | none => h

/-- One element of `args ...interface{}`, a `*HTTPError` being an address
(`none` is the nil pointer). -/
inductive PtrArg where
  | message (m : Message)
  | kind (k : kind)
  | httpError (p : Option Nat)
  | error (text : String)
  | params (v : Params)
  | nil
deriving DecidableEq, Repr

/-- The body of the `range args` loop of `E` for one argument; `e` is the
address of the error under construction. `copy := *arg; e.err = &copy`
allocates the copy at the end of the heap. -/
def Mem.assignArg (h : Heap) (e : Nat) : PtrArg → Except String Heap
  | .message arg => .ok (h.update e (fun c => { c with message := arg }))
  | .kind arg => .ok (h.update e (fun c => { c with kind := arg }))
  | .httpError (some arg) =>
    match h[arg]? with
    | some cell =>
      let copy := h.length
      let h := h ++ [cell]
      .ok (h.update e (fun c => { c with err := .ptr copy }))
    | none => .error "invalid memory address or nil pointer dereference"
  | .httpError none => .error "invalid memory address or nil pointer dereference"
  | .error arg => .ok (h.update e (fun c => { c with err := .other arg }))
  | .params arg => .ok (h.update e (fun c => { c with params := some arg }))
  | .nil => .error "unknown type <nil>, value <nil> in error call"

/-- The `range args` loop of `E`. -/
def Mem.assignArgs (h : Heap) (e : Nat) : List PtrArg → Except String Heap
  | [] => .ok h
  | arg :: rest =>
    match Mem.assignArg h e arg with
    | .ok h1 => Mem.assignArgs h1 e rest
    | .error msg => .error msg

/-- Go: `func (e *HTTPError) populateStack()` with `e` an address. -/
def Mem.populateStack (h : Heap) (e : Nat) (fresh : List Nat) : Heap :=
  let h := h.update e (fun c => { c with callers := fresh })
  match h[e]? with
  | some ce =>
    match ce.err with
    | .ptr e2 =>
      match h[e2]? with
      | some c2 =>
        let (i, ok) := suffixLoop ce.callers c2.callers ce.callers.length 0 false
        if ok then
          let head := c2.callers.take (c2.callers.length - i)
          let tail := ce.callers
          let h := h.update e (fun c => { c with callers := head ++ tail })
          h.update e2 (fun c => { c with callers := [] })
        else h
      | none => h
    | _ => h
  | none => h

/-- The duplicate suppression at the end of `E` with `e` an address. -/
def Mem.dedup (h : Heap) (e : Nat) : Heap :=
  match h[e]? with
  | some ce =>
    match ce.err with
    | .ptr prev =>
      let h := match h[prev]? with
        | some cp => if cp.message = ce.message then
            h.update prev (fun c => { c with message := "" }) else h
        | none => h
      match h[prev]? with
      | some cp => if cp.kind = ce.kind then
          h.update prev (fun c => { c with kind := 0 }) else h
      | none => h
    | _ => h
  | none => h

/-- Go: `func E(args ...interface{}) error` on the heap `h`: the heap after
the call and the address returned, or the panic. -/
def Mem.E (h : Heap) (args : List PtrArg) (fresh : List Nat) : Except String (Heap × Nat) :=
  if args.length = 0 then .error "call to errors.E with no arguments"
  else
    let e := h.length
    let h := h ++ [{ kind := 0, message := "", err := .nil, params := none, callers := [] }]
    match Mem.assignArgs h e args with
    | .error msg => .error msg
    | .ok h =>
      let h := Mem.populateStack h e fresh
      let h := Mem.dedup h e
      .ok (h, e)

/-! ## Vocabulary of the specification -/

/-- The error chain of a receiver: the receiver followed by the `HTTPError`
layers reached through `err`, ending at nil or at the first error that is not
an `HTTPError`. -/
def HTTPError.layers : HTTPError → List HTTPError
  | .mk k m e ps cs =>
    .mk k m e ps cs ::
      (match e with
       | .http p => HTTPError.layers p
       | _ => [])

/-- The texts `Message` strings together: every layer's message in
outer-to-inner order, followed by the text of the final cause that is not an
`HTTPError`, if there is one. -/
def HTTPError.pieces : HTTPError → List String
  | .mk _ m e _ _ =>
    m ::
      (match e with
       | .nil => []
       | .http p => HTTPError.pieces p
       | .other text => [text])

/-- Joining with ": " where the separator is omitted whenever either of the
two sides it would join is empty. -/
def joinOmitEmpty : List String → String
  | [] => ""
  | s :: rest =>
    if s = "" then joinOmitEmpty rest
    else if joinOmitEmpty rest = "" then s
    else s ++ ": " ++ joinOmitEmpty rest

/-- Joining left to right where ": " is written before a piece whenever the
text accumulated so far is non-empty, whether or not the piece is empty. -/
def joinPad (pieces : List String) : String :=
  pieces.foldl (fun b s => if b = "" then s else b ++ ": " ++ s) ""

/-- The cause an argument of `E` assigns to `e.err`, if it assigns one. -/
def Arg.cause? : Arg → Option GoError
  | .httpError (some a) => some (.http a)
  | .error text => some (.other text)
  | _ => none

/-- The wrapped argument of a call of `E`: the last argument that assigns the
cause, as the `error` value stored for it. -/
def wrappedArg (args : List Arg) : Option GoError :=
  (args.filterMap Arg.cause?).getLast?

/-- The kind an argument of `E` assigns, if it assigns one. -/
def Arg.kind? : Arg → Option errs.kind
  | .kind k => some k
  | _ => none

/-- The message an argument of `E` assigns, if it assigns one. -/
def Arg.message? : Arg → Option Message
  | .message m => some m
  | _ => none

/-- The payload an argument of `E` assigns, if it assigns one. -/
def Arg.params? : Arg → Option Params
  | .params v => some v
  | _ => none

/-- The argument is a nil value: the nil interface or a nil `*HTTPError`. -/
def Arg.isNilValue : Arg → Bool
  | .nil => true
  | .httpError none => true
  | _ => false

/-- The argument has a dynamic type (every type is accepted by some case of
the switch of `E`); only the nil interface has none. -/
def Arg.hasType : Arg → Bool
  | .nil => false
  | _ => true

/-- The re-tagging sequence `w_1 = E(K, M)`, `w_{j+1} = E(K, M, w_j)`:
`retagged K M fresh j` is `w_{j+1}`, the stack captured by the call that builds
it being `fresh j`. -/
def retagged (K : kind) (M : Message) (fresh : Nat → List Nat) :
    Nat → Except String HTTPError
  | 0 => E [.kind K, .message M] (fresh 0)
  | j + 1 =>
    match retagged K M fresh j with
    | .ok w => E [.kind K, .message M, .httpError (some w)] (fresh (j + 1))
    | .error msg => .error msg

/-- A chain of `d + 1` layers that all have kind 0 and an empty message, the
innermost with a nil cause. -/
def IsBlankChain : Nat → HTTPError → Prop
  | 0, e => e.kind = 0 ∧ e.message = "" ∧ e.err = .nil
  | d + 1, e => e.kind = 0 ∧ e.message = "" ∧ ∃ p, e.err = .http p ∧ IsBlankChain d p

/-- Every cell of `h0` is found unchanged, at the same address, in `h`. -/
@[reducible] def Heap.Keeps (h0 h : Heap) : Prop :=
  ∀ (a : Nat) (c : Cell), h0[a]? = some c → h[a]? = some c

/-- The cause stored in the cell at `e`, when it is a pointer, points outside
the cells of `h0`. -/
@[reducible] def Heap.CauseOutside (h0 h : Heap) (e : Nat) : Prop :=
  ∀ (ce : Cell) (c : Nat), h[e]? = some ce → ce.err = .ptr c → h0.length ≤ c

/-- The value an `error` in memory denotes: the chain read out of the heap,
following at most `fuel` pointers. -/
def Heap.load (h : Heap) : Nat → ErrRef → Option GoError
  | _, .nil => some .nil
  | _, .other text => some (.other text)
  | 0, .ptr _ => none
  | fuel + 1, .ptr a =>
    match h[a]? with
    | none => none
    | some c =>
      match Heap.load h fuel c.err with
      | some g => some (.http (.mk c.kind c.message g c.params c.callers))
      | none => none

/-- The argument of `E` that an argument in memory denotes. -/
def PtrArg.load (h : Heap) (fuel : Nat) : PtrArg → Option Arg
  | .message m => some (.message m)
  | .kind k => some (.kind k)
  | .httpError none => some (.httpError none)
  | .httpError (some a) =>
    match h.load fuel (.ptr a) with
    | some (.http v) => some (.httpError (some v))
    | _ => none
  | .error text => some (.error text)
  | .params v => some (.params v)
  | .nil => some .nil

/-- The cell `c` holds the fields of the value `v` other than the cause. -/
def Cell.Holds (c : Cell) (v : HTTPError) : Prop :=
  c.kind = v.kind ∧ c.message = v.message ∧ c.params = v.params ∧ c.callers = v.callers

/-- The cause `r` stored in the error under construction denotes `g`: a
pointer points to a cell allocated after `h0` that holds a copy whose own cause
is read out of `h0`. -/
def Mem.CauseSim (h0 : Heap) (m : Nat) (h : Heap) : ErrRef → GoError → Prop
  | .nil, .nil => True
  | .other t, .other t2 => t = t2
  | .ptr c, .http p =>
    h0.length < c ∧ ∃ cc : Cell, h[c]? = some cc ∧ cc.Holds p ∧ h0.load m cc.err = some p.err
  | _, _ => False

/-- The heap `h` reached from `h0` while `E` runs represents the value `ev` of
the error under construction, which lives at address `len(h0)`. -/
def Mem.Sim (h0 : Heap) (m : Nat) (h : Heap) (ev : HTTPError) : Prop :=
  Heap.Keeps h0 h ∧ ∃ ce : Cell, h[h0.length]? = some ce ∧ ce.Holds ev ∧
    Mem.CauseSim h0 m h ce.err ev.err

/-- The last `j` elements of `A` and of `B` exist and coincide: `A` and `B`
have a common suffix of length `j`. -/
def CommonSuffix (A B : List Nat) (j : Nat) : Prop :=
  j ≤ A.length ∧ j ≤ B.length ∧ A.drop (A.length - j) = B.drop (B.length - j)

/-- `i` is the length of the longest common suffix of `A` and `B`. -/
def IsLongestCommonSuffixLen (A B : List Nat) (i : Nat) : Prop :=
  CommonSuffix A B i ∧ ∀ j, CommonSuffix A B j → j ≤ i

/-! ## Basic facts -/

theorem pad_nil (str : String) : pad "" str = "" := by
  simp [pad]

theorem pad_of_ne (b str : String) (h : b.length ≠ 0) : pad b str = b ++ str := by
  simp [pad, h]

theorem length_eq_zero_iff_eq_empty (s : String) : s.length = 0 ↔ s = "" := by
  constructor
  · intro h
    cases s with
    | mk d =>
      have hd : d = [] := List.length_eq_zero.mp h
      subst hd
      rfl
  · intro h
    subst h
    rfl

@[simp] theorem kind_mk (k : kind) (m : Message) (e : GoError) (ps : Option Params)
    (cs : List Nat) : (HTTPError.mk k m e ps cs).kind = k := rfl

@[simp] theorem message_mk (k : kind) (m : Message) (e : GoError) (ps : Option Params)
    (cs : List Nat) : (HTTPError.mk k m e ps cs).message = m := rfl

@[simp] theorem err_mk (k : kind) (m : Message) (e : GoError) (ps : Option Params)
    (cs : List Nat) : (HTTPError.mk k m e ps cs).err = e := rfl

@[simp] theorem params_mk (k : kind) (m : Message) (e : GoError) (ps : Option Params)
    (cs : List Nat) : (HTTPError.mk k m e ps cs).params = ps := rfl

@[simp] theorem callers_mk (k : kind) (m : Message) (e : GoError) (ps : Option Params)
    (cs : List Nat) : (HTTPError.mk k m e ps cs).callers = cs := rfl

theorem mk_eta (e : HTTPError) :
    HTTPError.mk e.kind e.message e.err e.params e.callers = e := by
  cases e
  rfl

theorem layers_eq_cons (e : HTTPError) : e.layers = e :: e.layers.tail := by
  cases e with
  | mk k m err ps cs => cases err <;> simp [HTTPError.layers]

theorem layers_http (k : kind) (m : Message) (p : HTTPError) (ps : Option Params)
    (cs : List Nat) :
    (HTTPError.mk k m (.http p) ps cs).layers = .mk k m (.http p) ps cs :: p.layers := by
  simp [HTTPError.layers]

/-! ## Status -/

theorem statusLoop_eq (he : HTTPError) :
    ∀ copy : HTTPError, HTTPError.statusLoop he copy =
      match (HTTPError.layers copy).tail.find? (fun l => l.kind != 0) with
      | some l => kind.HttpStatus l.kind
      | none => kind.HttpStatus he.kind
  | .mk _ _ .nil _ _ => by simp [HTTPError.statusLoop, HTTPError.layers]
  | .mk _ _ (.other _) _ _ => by simp [HTTPError.statusLoop, HTTPError.layers]
  | .mk k m (.http p) ps cs => by
    have ih := statusLoop_eq he p
    rw [layers_http, List.tail_cons, layers_eq_cons p, List.find?_cons]
    by_cases hk : p.kind = 0
    · simp only [HTTPError.statusLoop, hk, ne_eq, not_true_eq_false, ↓reduceIte,
        bne_self_eq_false]
      exact ih
    · have hb : (p.kind != 0) = true := by simpa using hk
      simp [HTTPError.statusLoop, hk, hb]

/-- C1: for every error chain, `Status()` is `HttpStatus()` of the first layer,
scanning from the receiver inward, whose kind is not 0, and is 500
(`http.StatusInternalServerError`) when no layer of the chain has a kind. -/
theorem Status_eq_first_kind_layer (he : HTTPError) :
    he.Status =
      match he.layers.find? (fun l => l.kind != 0) with
      | some l => kind.HttpStatus l.kind
      | none => 500 := by
  have hloop := statusLoop_eq he he
  rw [layers_eq_cons he, List.find?_cons]
  by_cases hk : he.kind = 0
  · simp only [HTTPError.Status, hk, ne_eq, not_true_eq_false, ↓reduceIte, bne_self_eq_false]
    rw [hloop, hk]
    rfl
  · have hb : (he.kind != 0) = true := by simpa using hk
    simp [HTTPError.Status, hk, hb]

/-! ## Error -/

theorem floor_length_pos (b : String) :
    0 < (if b.length = 0 then "no error" else b).length := by
  split
  · decide
  · omega

/-- C7: for every `HTTPError` value (any kind, message and cause chain, opaque
causes with empty text included), `Error()` returns a non-empty string. -/
theorem Error_nonempty (e : HTTPError) : e.Error ≠ "" ∧ 0 < e.Error.length := by
  have h : 0 < e.Error.length := by
    cases e with
    | mk k m err ps cs =>
      cases err <;> simp only [HTTPError.Error] <;> exact floor_length_pos _
  refine ⟨?_, h⟩
  intro h0
  rw [h0] at h
  exact absurd h (by decide)

/-- C8: for an `HTTPError` with kind 0, empty message and nil err (`isZero`
holds), `Error()` returns exactly "no error". -/
theorem Error_of_isZero (e : HTTPError) (h : e.isZero = true) : e.Error = "no error" := by
  cases e with
  | mk k m err ps cs =>
    cases err with
    | nil =>
      simp [HTTPError.isZero, GoError.isNil] at h
      obtain ⟨hk, hm⟩ := h
      subst hk
      subst hm
      rfl
    | http p => simp [HTTPError.isZero, HTTPError.err, GoError.isNil] at h
    | other t => simp [HTTPError.isZero, HTTPError.err, GoError.isNil] at h

theorem Error_of_isZero_witness :
    (HTTPError.mk 0 "" .nil (some (.str "payload")) [4198400, 4198912]).isZero = true ∧
      (HTTPError.mk 0 "" .nil (some (.str "payload")) [4198400, 4198912]).Error = "no error" :=
  ⟨by decide, Error_of_isZero _ (by decide)⟩

/-! ## The kind table -/

theorem kind_String_length_pos (k : kind) : (kind.String k).length ≠ 0 := by
  unfold kind.String
  repeat' split
  all_goals decide

theorem String_generic_iff_aux (k : Nat) :
    kind.String k = "UNEXPECTED_ERROR" ↔ (k = 0 ∨ k = 9 ∨ 10 < k) := by
  by_cases hk : k ≤ 10
  · interval_cases k <;> decide
  · constructor
    · intro _
      omega
    · intro _
      have e1 : k ≠ 1 := by omega
      have e2 : k ≠ 2 := by omega
      have e3 : k ≠ 3 := by omega
      have e4 : k ≠ 4 := by omega
      have e5 : k ≠ 5 := by omega
      have e6 : k ≠ 6 := by omega
      have e7 : k ≠ 7 := by omega
      have e8 : k ≠ 8 := by omega
      have e10 : k ≠ 10 := by omega
      simp [kind.String, UnauthorizedCredential, InvalidCredential, RepositoryError,
        SupplierError, ValidationError, JSONError, InvalidInput, NotFound, CacheMalfunction,
        e1, e2, e3, e4, e5, e6, e7, e8, e10]

/-- C10 (evaluation of the code): `String()` gives the enumerated category
`Unprocessable` the generic tag "UNEXPECTED_ERROR"; the generic tag is
returned exactly for 0, for `Unprocessable` and for every value above
`CacheMalfunction`. -/
theorem String_generic_iff :
    kind.String Unprocessable = "UNEXPECTED_ERROR" ∧
      ∀ k : kind, kind.String k = "UNEXPECTED_ERROR" ↔
        (k = 0 ∨ k = Unprocessable ∨ CacheMalfunction < k) :=
  ⟨by decide, fun k => String_generic_iff_aux k⟩

/-! ## The builder -/

theorem assignArg_err (e0 e1 : HTTPError) (arg : Arg) (h : assignArg e0 arg = .ok e1) :
    e1.err = (Arg.cause? arg).getD e0.err := by
  cases arg with
  | message m => simp [assignArg] at h; subst h; rfl
  | kind k => simp [assignArg] at h; subst h; rfl
  | httpError p =>
    cases p with
    | none => simp [assignArg] at h
    | some a => simp [assignArg] at h; subst h; rfl
  | error t => simp [assignArg] at h; subst h; rfl
  | params v => simp [assignArg] at h; subst h; rfl
  | nil => simp [assignArg] at h

theorem assignArgs_err (args : List Arg) :
    ∀ e0 e : HTTPError, assignArgs e0 args = .ok e →
      e.err = (wrappedArg args).getD e0.err := by
  induction args with
  | nil =>
    intro e0 e h
    simp [assignArgs] at h
    subst h
    rfl
  | cons arg rest ih =>
    intro e0 e h
    simp only [assignArgs] at h
    cases h1 : assignArg e0 arg with
    | error msg => rw [h1] at h; simp at h
    | ok e1 =>
      rw [h1] at h
      have hrest := ih e1 e h
      have harg := assignArg_err e0 e1 arg h1
      rw [hrest, harg]
      unfold wrappedArg
      cases hc : Arg.cause? arg with
      | none => simp [List.filterMap_cons, hc]
      | some c =>
        simp only [List.filterMap_cons, hc, List.getLast?_cons, Option.getD_some]

theorem populateStack_shape (e : HTTPError) (fresh : List Nat) :
    ∃ cs cs2 : List Nat, e.populateStack fresh =
      .mk e.kind e.message
        (match e.err with
         | .http p => .http (.mk p.kind p.message p.err p.params cs2)
         | x => x)
        e.params cs := by
  cases e with
  | mk k m err ps cs0 =>
    cases err with
    | nil => exact ⟨fresh, [], rfl⟩
    | other t => exact ⟨fresh, [], rfl⟩
    | http p =>
      cases p with
      | mk k2 m2 err2 ps2 cs2 =>
        simp only [HTTPError.populateStack]
        split
        · exact ⟨_, _, rfl⟩
        · exact ⟨_, _, rfl⟩

theorem dedup_http (e prev : HTTPError) (h : e.err = .http prev) :
    dedup e = .mk e.kind e.message
      (.http (.mk (if prev.kind = e.kind then 0 else prev.kind)
        (if prev.message = e.message then "" else prev.message)
        prev.err prev.params prev.callers)) e.params e.callers := by
  unfold dedup
  rw [h]
  simp only []
  by_cases hm : prev.message = e.message <;> by_cases hk : prev.kind = e.kind <;>
    simp [hm, hk, mk_eta]

theorem dedup_not_http (e : HTTPError) (h : ∀ prev, e.err ≠ .http prev) : dedup e = e := by
  unfold dedup
  split
  · next prev hp => exact absurd hp (h prev)
  · rfl

theorem E_ok (args : List Arg) (fresh : List Nat) (e : HTTPError)
    (h : E args fresh = .ok e) :
    ∃ e1, assignArgs (.mk 0 "" .nil none []) args = .ok e1 ∧
      e = dedup (e1.populateStack fresh) := by
  unfold E at h
  split at h
  · simp at h
  · split at h
    · simp at h
    · next e1 h1 =>
      simp only [Except.ok.injEq] at h
      exact ⟨e1, h1, h.symm⟩

/-- C3: whenever `E` returns a value `e` whose `err` is an `*HTTPError` `p`,
the wrapped argument (the last cause-assigning argument) is an `*HTTPError`
`a`, and `p` is `a` with the kind replaced by 0 if `a.kind = e.kind`, the
message replaced by "" if `a.message = e.message`, and `err` and `params`
untouched. -/
theorem E_dedup (args : List Arg) (fresh : List Nat) (e p : HTTPError)
    (hE : E args fresh = .ok e) (hp : e.err = .http p) :
    ∃ a : HTTPError, wrappedArg args = some (.http a) ∧
      p.kind = (if a.kind = e.kind then 0 else a.kind) ∧
      p.message = (if a.message = e.message then "" else a.message) ∧
      p.err = a.err ∧ p.params = a.params := by
  obtain ⟨e1, h1, he⟩ := E_ok args fresh e hE
  have herr := assignArgs_err args _ e1 h1
  obtain ⟨cs, cs2, hshape⟩ := populateStack_shape e1 fresh
  rw [hshape] at he
  cases hw : e1.err with
  | nil =>
    rw [hw] at he
    rw [dedup_not_http _ (by intro prev; simp)] at he
    rw [he] at hp
    simp at hp
  | other t =>
    rw [hw] at he
    rw [dedup_not_http _ (by intro prev; simp)] at he
    rw [he] at hp
    simp at hp
  | http a =>
    rw [hw] at he
    simp only [] at he
    rw [dedup_http _ _ (err_mk _ _ _ _ _)] at he
    subst he
    simp only [err_mk, GoError.http.injEq] at hp
    subst hp
    refine ⟨a, ?_, by simp, by simp, by simp, by simp⟩
    rw [hw] at herr
    cases hwa : wrappedArg args with
    | none => rw [hwa] at herr; simp at herr
    | some c => rw [hwa] at herr; simp at herr; rw [herr]

theorem E_dedup_witness :
    ∃ a : HTTPError,
      wrappedArg [.kind NotFound, .httpError (some (.mk NotFound "missing" .nil none [7, 2, 3])),
        .message "lookup"] = some (.http a) ∧
      (HTTPError.mk 0 "missing" .nil none []).kind =
        (if a.kind = (HTTPError.mk NotFound "lookup"
          (.http (.mk 0 "missing" .nil none [])) none [7, 1, 2, 3]).kind then 0 else a.kind) ∧
      (HTTPError.mk 0 "missing" .nil none []).message =
        (if a.message = (HTTPError.mk NotFound "lookup"
          (.http (.mk 0 "missing" .nil none [])) none [7, 1, 2, 3]).message then ""
          else a.message) ∧
      (HTTPError.mk 0 "missing" .nil none []).err = a.err ∧
      (HTTPError.mk 0 "missing" .nil none []).params = a.params :=
  E_dedup [.kind NotFound, .httpError (some (.mk NotFound "missing" .nil none [7, 2, 3])),
      .message "lookup"] [1, 2, 3]
    (.mk NotFound "lookup" (.http (.mk 0 "missing" .nil none [])) none [7, 1, 2, 3])
    (.mk 0 "missing" .nil none []) rfl rfl

/-- C4: for every non-zero kind `K` and non-empty message `M` (and whatever
stacks are captured), `E(K, M, E(K, M))` has a cause whose kind is 0 and whose
message is "", and its `Error()` text is exactly `K.String() + ": " + M`. -/
theorem E_rewrap_same (K : kind) (M : Message) (fresh1 fresh2 : List Nat)
    (hK : K ≠ 0) (hM : M ≠ "") :
    ∃ inner outer cause : HTTPError,
      E [.kind K, .message M] fresh1 = .ok inner ∧
      E [.kind K, .message M, .httpError (some inner)] fresh2 = .ok outer ∧
      outer.err = .http cause ∧ cause.kind = 0 ∧ cause.message = "" ∧
      outer.Error = kind.String K ++ ": " ++ M := by
  obtain ⟨cs, cs2, hshape⟩ :=
    populateStack_shape (.mk K M (.http (.mk K M .nil none fresh1)) none []) fresh2
  refine ⟨.mk K M .nil none fresh1,
    .mk K M (.http (.mk 0 "" .nil none cs2)) none cs, .mk 0 "" .nil none cs2, rfl, ?_, rfl, rfl,
    rfl, ?_⟩
  · simp only [E, List.length_cons, List.length_nil, assignArgs, assignArg, kind_mk, message_mk,
      err_mk, params_mk, callers_mk]
    rw [hshape]
    simp [dedup]
  · have hlen : (kind.String K).length ≠ 0 := kind_String_length_pos K
    have hlen2 : (kind.String K ++ ": " ++ M).length ≠ 0 := by
      simp only [String.length_append]
      omega
    simp only [HTTPError.Error, pad_nil, String.empty_append, ne_eq, hK, not_false_eq_true,
      ↓reduceIte, hM, pad_of_ne _ _ hlen]
    have hz : (HTTPError.mk 0 "" GoError.nil none cs2).isZero = true := by
      simp [HTTPError.isZero, GoError.isNil]
    simp only [hz, Bool.not_true, Bool.false_eq_true, ↓reduceIte, hlen2]

theorem E_rewrap_same_witness :
    (ValidationError ≠ 0 ∧ ("bad id" : Message) ≠ "") ∧
    ∃ inner outer cause : HTTPError,
      E [.kind ValidationError, .message "bad id"] [11, 2, 3] = .ok inner ∧
      E [.kind ValidationError, .message "bad id", .httpError (some inner)] [2, 3] = .ok outer ∧
      outer.err = .http cause ∧ cause.kind = 0 ∧ cause.message = "" ∧
      outer.Error = kind.String ValidationError ++ ": " ++ "bad id" :=
  ⟨⟨by decide, by decide⟩,
    E_rewrap_same ValidationError "bad id" [11, 2, 3] [2, 3] (by decide) (by decide)⟩

/-- C9: the value returned by `E(ValidationError, Message("bad id"))` has
`Status() = 400` and `Error() = "VALIDATION_ERROR: bad id"`, whatever stack is
captured. -/
theorem E_validation_example (fresh : List Nat) :
    ∃ e : HTTPError, E [.kind ValidationError, .message "bad id"] fresh = .ok e ∧
      e.Status = 400 ∧ e.Error = "VALIDATION_ERROR: bad id" :=
  ⟨.mk ValidationError "bad id" .nil none fresh, rfl, rfl, rfl⟩

/-! ## Stack coalescing -/

theorem drop_length_sub_succ (l : List Nat) (i : Nat) (h : i < l.length) :
    l.drop (l.length - (i + 1)) = l[l.length - 1 - i] :: l.drop (l.length - i) := by
  have hn : l.length - (i + 1) < l.length := by omega
  rw [List.drop_eq_getElem_cons hn]
  have e1 : l.length - 1 - i = l.length - (i + 1) := by omega
  have e2 : l.length - (i + 1) + 1 = l.length - i := by omega
  simp only [e1, e2]

theorem CommonSuffix.getElem_eq {A B : List Nat} {j : Nat} (hj : CommonSuffix A B j)
    (i : Nat) (hi : i < j) (hA : A.length - 1 - i < A.length)
    (hB : B.length - 1 - i < B.length) :
    A[A.length - 1 - i] = B[B.length - 1 - i] := by
  obtain ⟨hjA, hjB, hdrop⟩ := hj
  have h1 : (A.drop (A.length - j))[j - 1 - i]? = A[A.length - 1 - i]? := by
    rw [List.getElem?_drop]
    congr 1
    omega
  have h2 : (B.drop (B.length - j))[j - 1 - i]? = B[B.length - 1 - i]? := by
    rw [List.getElem?_drop]
    congr 1
    omega
  rw [hdrop, h2, List.getElem?_eq_getElem hA, List.getElem?_eq_getElem hB] at h1
  exact (Option.some.inj h1).symm

theorem IsLongestCommonSuffixLen.unique {A B : List Nat} {i j : Nat}
    (hi : IsLongestCommonSuffixLen A B i) (hj : IsLongestCommonSuffixLen A B j) : i = j :=
  Nat.le_antisymm (hj.2 i hi.1) (hi.2 j hj.1)

/-- The comparison loop started in a state where the last `i` elements agree
and `ok` records `0 < i` ends with the length of the longest common suffix,
`ok` recording whether it is positive; the iteration bound `len(e.callers) - i`
is never what stops it. -/
theorem suffixLoop_spec (ec e2c : List Nat) :
    ∀ (fuel i : Nat) (ok : Bool), ec.length - i ≤ fuel → CommonSuffix e2c ec i →
      (ok = true ↔ 0 < i) →
      IsLongestCommonSuffixLen e2c ec (suffixLoop ec e2c fuel i ok).1 ∧
        ((suffixLoop ec e2c fuel i ok).2 = true ↔ 0 < (suffixLoop ec e2c fuel i ok).1) := by
  intro fuel
  induction fuel with
  | zero =>
    intro i ok hfuel hcs hok
    simp only [suffixLoop]
    refine ⟨⟨hcs, ?_⟩, hok⟩
    intro j hj
    have := hj.2.1
    have := hcs.2.1
    omega
  | succ fuel ih =>
    intro i ok hfuel hcs hok
    unfold suffixLoop
    split
    · next h =>
      split
      · next hne =>
        refine ⟨⟨hcs, ?_⟩, hok⟩
        intro j hj
        by_contra hlt
        have hij : i < j := by omega
        exact hne (hj.getElem_eq i hij (by omega) (by omega)).symm
      · next heq =>
        have heq2 : ec[ec.length - 1 - i] = e2c[e2c.length - 1 - i] := by
          by_contra hc
          exact heq hc
        apply ih (i + 1) true (by omega)
        · refine ⟨by omega, by omega, ?_⟩
          rw [drop_length_sub_succ e2c i h.2, drop_length_sub_succ ec i h.1, heq2, hcs.2.2]
        · simp
    · next h =>
      refine ⟨⟨hcs, ?_⟩, hok⟩
      intro j hj
      have := hj.1
      have := hj.2.1
      have := hcs.1
      have := hcs.2.1
      omega

theorem suffixLoop_start (ec e2c : List Nat) :
    IsLongestCommonSuffixLen e2c ec (suffixLoop ec e2c ec.length 0 false).1 ∧
      ((suffixLoop ec e2c ec.length 0 false).2 = true ↔
        0 < (suffixLoop ec e2c ec.length 0 false).1) := by
  apply suffixLoop_spec ec e2c ec.length 0 false (by omega)
  · refine ⟨by omega, by omega, ?_⟩
    simp
  · simp

theorem commonSuffix_one_iff (A B : List Nat) :
    CommonSuffix A B 1 ↔ ∃ x, A.getLast? = some x ∧ B.getLast? = some x := by
  constructor
  · rintro ⟨hA, hB, hdrop⟩
    have hA2 : A.length - 1 < A.length := by omega
    have hB2 : B.length - 1 < B.length := by omega
    rw [List.drop_eq_getElem_cons hA2, List.drop_eq_getElem_cons hB2] at hdrop
    have hx : A[A.length - 1] = B[B.length - 1] := (List.cons.inj hdrop).1
    refine ⟨A[A.length - 1], ?_, ?_⟩
    · rw [List.getLast?_eq_getElem?, List.getElem?_eq_getElem hA2]
    · rw [List.getLast?_eq_getElem?, List.getElem?_eq_getElem hB2, hx]
  · rintro ⟨x, hA, hB⟩
    have hA1 : 1 ≤ A.length := by
      cases A with
      | nil => simp at hA
      | cons a as => simp
    have hB1 : 1 ≤ B.length := by
      cases B with
      | nil => simp at hB
      | cons b bs => simp
    have hA2 : A.length - 1 < A.length := by omega
    have hB2 : B.length - 1 < B.length := by omega
    refine ⟨hA1, hB1, ?_⟩
    rw [List.getLast?_eq_getElem?, List.getElem?_eq_getElem hA2] at hA
    rw [List.getLast?_eq_getElem?, List.getElem?_eq_getElem hB2] at hB
    rw [List.drop_eq_getElem_cons hA2, List.drop_eq_getElem_cons hB2]
    have e1 : A.length - 1 + 1 = A.length := by omega
    have e2 : B.length - 1 + 1 = B.length := by omega
    rw [e1, e2, List.drop_length, List.drop_length, Option.some.inj hA, Option.some.inj hB]

theorem CommonSuffix.mono {A B : List Nat} {j k : Nat} (hj : CommonSuffix A B j)
    (hk : k ≤ j) : CommonSuffix A B k := by
  obtain ⟨hjA, hjB, hdrop⟩ := hj
  refine ⟨by omega, by omega, ?_⟩
  have hA : A.drop (A.length - k) = (A.drop (A.length - j)).drop (j - k) := by
    rw [List.drop_drop]
    congr 1
    omega
  have hB : B.drop (B.length - k) = (B.drop (B.length - j)).drop (j - k) := by
    rw [List.drop_drop]
    congr 1
    omega
  rw [hA, hB, hdrop]

/-- C5: in `populateStack`, when the wrapped `HTTPError` has stack `A`, the
freshly captured stack is `B`, the last elements of `A` and `B` are equal and
`i` is the length of their longest common suffix, the outer callers become
`A[0 : len(A)-i]` followed by all of `B` (length `len(A) - i + len(B)`) and the
wrapped error's callers become empty, its other fields being kept. -/
theorem populateStack_coalesce (e e2 : HTTPError) (A B : List Nat) (i : Nat)
    (herr : e.err = .http e2) (hA : e2.callers = A)
    (hlast : ∃ x, A.getLast? = some x ∧ B.getLast? = some x)
    (hi : IsLongestCommonSuffixLen A B i) :
    (e.populateStack B).callers = A.take (A.length - i) ++ B ∧
      (e.populateStack B).callers.length = A.length - i + B.length ∧
      (e.populateStack B).err = .http (.mk e2.kind e2.message e2.err e2.params []) := by
  cases e with
  | mk k m err ps cs =>
    cases e2 with
    | mk k2 m2 err2 ps2 cs2 =>
      simp only [err_mk, callers_mk] at herr hA
      subst herr
      subst hA
      have hpos : 0 < i := hi.2 1 ((commonSuffix_one_iff cs2 B).mpr hlast)
      have hspec := suffixLoop_start B cs2
      simp only [HTTPError.populateStack]
      rcases hsl : suffixLoop B cs2 B.length 0 false with ⟨i2, ok⟩
      rw [hsl] at hspec
      simp only [] at hspec
      have hii : i2 = i := hspec.1.unique hi
      subst hii
      have hok : ok = true := hspec.2.mpr hpos
      subst hok
      simp only [↓reduceIte, callers_mk, err_mk, kind_mk, message_mk, params_mk,
        List.length_append, List.length_take, true_and, and_true]
      rw [min_eq_left (Nat.sub_le _ _)]

theorem populateStack_coalesce_witness :
    (HTTPError.mk 0 "" (.http (.mk NotFound "missing" .nil none [7, 2, 3])) none []).err =
        .http (.mk NotFound "missing" .nil none [7, 2, 3]) ∧
      (∃ x, [7, 2, 3].getLast? = some x ∧ [1, 2, 3].getLast? = some x) ∧
      IsLongestCommonSuffixLen [7, 2, 3] [1, 2, 3] 2 ∧
      ((HTTPError.mk 0 "" (.http (.mk NotFound "missing" .nil none [7, 2, 3])) none
          []).populateStack [1, 2, 3]).callers = [7, 1, 2, 3] ∧
      ((HTTPError.mk 0 "" (.http (.mk NotFound "missing" .nil none [7, 2, 3])) none
          []).populateStack [1, 2, 3]).err = .http (.mk NotFound "missing" .nil none []) := by
  have hcs : IsLongestCommonSuffixLen [7, 2, 3] [1, 2, 3] 2 := by
    refine ⟨⟨by decide, by decide, by decide⟩, ?_⟩
    rintro j ⟨h1, h2, h3⟩
    by_contra hj
    have h3j : j = 3 := by
      simp only [List.length_cons, List.length_nil] at h1
      omega
    subst h3j
    simp at h3
  have h := populateStack_coalesce
    (.mk 0 "" (.http (.mk NotFound "missing" .nil none [7, 2, 3])) none [])
    (.mk NotFound "missing" .nil none [7, 2, 3]) [7, 2, 3] [1, 2, 3] 2 rfl rfl
    ⟨3, by decide, by decide⟩ hcs
  exact ⟨rfl, ⟨3, by decide, by decide⟩, hcs, h.1, h.2.2⟩

/-- C6: in `populateStack`, if the cause is nil or not an `HTTPError`, or it is
an `HTTPError` whose stack `A` has no common suffix with the freshly captured
stack `B` (either is empty or their last elements differ), the outer callers
are exactly `B` and the cause, its callers included, is left unchanged. -/
theorem populateStack_no_common (e : HTTPError) (B : List Nat)
    (h : ∀ e2, e.err = .http e2 →
      e2.callers = [] ∨ B = [] ∨ e2.callers.getLast? ≠ B.getLast?) :
    (e.populateStack B).callers = B ∧ (e.populateStack B).err = e.err := by
  cases e with
  | mk k m err ps cs =>
    cases err with
    | nil => exact ⟨rfl, rfl⟩
    | other t => exact ⟨rfl, rfl⟩
    | http e2 =>
      cases e2 with
      | mk k2 m2 err2 ps2 cs2 =>
        have hno := h _ rfl
        simp only [callers_mk] at hno
        have hspec := suffixLoop_start B cs2
        simp only [HTTPError.populateStack]
        rcases hsl : suffixLoop B cs2 B.length 0 false with ⟨i2, ok⟩
        rw [hsl] at hspec
        simp only [] at hspec
        have hok : ok = false := by
          cases ok with
          | false => rfl
          | true =>
            exfalso
            have hpos : 0 < i2 := hspec.2.mp rfl
            have h1 : CommonSuffix cs2 B 1 := hspec.1.1.mono hpos
            obtain ⟨x, hx1, hx2⟩ := (commonSuffix_one_iff cs2 B).mp h1
            rcases hno with h0 | h0 | h0
            · rw [h0] at hx1
              simp at hx1
            · rw [h0] at hx2
              simp at hx2
            · exact h0 (hx1.trans hx2.symm)
        subst hok
        exact ⟨rfl, rfl⟩

theorem populateStack_no_common_witness :
    (∀ e2, (HTTPError.mk 0 "" (.http (.mk NotFound "missing" .nil none [7, 2, 3])) none []).err =
        .http e2 → e2.callers = [] ∨ [1, 2, 4] = [] ∨ e2.callers.getLast? ≠ [1, 2, 4].getLast?) ∧
      ((HTTPError.mk 0 "" (.http (.mk NotFound "missing" .nil none [7, 2, 3])) none
          []).populateStack [1, 2, 4]).callers = [1, 2, 4] ∧
      ((HTTPError.mk 0 "" (.http (.mk NotFound "missing" .nil none [7, 2, 3])) none
          []).populateStack [1, 2, 4]).err =
        (HTTPError.mk 0 "" (.http (.mk NotFound "missing" .nil none [7, 2, 3])) none []).err := by
  have hyp : ∀ e2,
      (HTTPError.mk 0 "" (.http (.mk NotFound "missing" .nil none [7, 2, 3])) none []).err =
        .http e2 →
      e2.callers = [] ∨ [1, 2, 4] = [] ∨ e2.callers.getLast? ≠ [1, 2, 4].getLast? := by
    intro e2 he2
    simp only [err_mk, GoError.http.injEq] at he2
    subst he2
    exact Or.inr (Or.inr (by decide))
  exact ⟨hyp, populateStack_no_common _ [1, 2, 4] hyp⟩

/-! ## Message -/

theorem pad_append_eq (b s : String) :
    pad b ": " ++ s = if b = "" then s else b ++ ": " ++ s := by
  by_cases hb : b = ""
  · subst hb
    simp [pad_nil]
  · have hl : b.length ≠ 0 := fun h => hb ((length_eq_zero_iff_eq_empty b).mp h)
    simp [pad_of_ne b ": " hl, hb]

theorem pieces_eq_cons (e : HTTPError) : e.pieces = e.message :: e.pieces.tail := by
  cases e with
  | mk k m err ps cs => cases err <;> simp [HTTPError.pieces]

theorem messageLoop_eq :
    ∀ (copy : HTTPError) (b : String), HTTPError.messageLoop copy b =
      (HTTPError.pieces copy).tail.foldl (fun b s => if b = "" then s else b ++ ": " ++ s) b
  | .mk _ _ .nil _ _, b => by simp [HTTPError.messageLoop, HTTPError.pieces]
  | .mk _ _ (.other t) _ _, b => by
    simp [HTTPError.messageLoop, HTTPError.pieces, pad_append_eq]
  | .mk _ _ (.http p) _ _, b => by
    have ih := messageLoop_eq p (pad b ": " ++ p.message)
    simp only [HTTPError.messageLoop, HTTPError.pieces, List.tail_cons]
    rw [ih, pieces_eq_cons p, List.foldl_cons, List.tail_cons, pad_append_eq]

theorem joinOmitEmpty_cons_ne (r : String) (rest : List String) (hr : r ≠ "") :
    joinOmitEmpty (r :: rest) ≠ "" := by
  have hl : r.length ≠ 0 := fun h => hr ((length_eq_zero_iff_eq_empty r).mp h)
  simp only [joinOmitEmpty, hr, ↓reduceIte]
  split
  · exact hr
  · intro h
    have := congrArg String.length h
    simp only [String.length_append] at this
    have h0 : ("" : String).length = 0 := rfl
    omega

theorem foldl_pad_eq_joinOmitEmpty (rest : List String) :
    ∀ b : String, b ≠ "" → (∀ s ∈ rest, s ≠ "") →
      rest.foldl (fun b s => if b = "" then s else b ++ ": " ++ s) b =
        joinOmitEmpty (b :: rest) := by
  induction rest with
  | nil =>
    intro b hb _
    simp [joinOmitEmpty, hb]
  | cons r rest ih =>
    intro b hb hall
    have hr : r ≠ "" := hall r (List.mem_cons_self r rest)
    have hrest : ∀ s ∈ rest, s ≠ "" := fun s hs => hall s (List.mem_cons_of_mem r hs)
    have hb2 : b ++ ": " ++ r ≠ "" := by
      intro h
      have := congrArg String.length h
      simp only [String.length_append] at this
      have hl : b.length ≠ 0 := fun h => hb ((length_eq_zero_iff_eq_empty b).mp h)
      have h0 : ("" : String).length = 0 := rfl
      omega
    rw [List.foldl_cons]
    simp only [hb, ↓reduceIte]
    rw [ih (b ++ ": " ++ r) hb2 hrest]
    have hne := joinOmitEmpty_cons_ne r rest hr
    rw [joinOmitEmpty, joinOmitEmpty]
    simp only [hb2, ↓reduceIte, hb, hne]
    simp only [joinOmitEmpty, hr, ↓reduceIte]
    split
    · rfl
    · simp only [String.append_assoc]

/-- C2 (as amended): `Message()` is the concatenation of every layer's message
in outer-to-inner order followed by the text of the final non-`HTTPError`
cause, with ": " written before a piece whenever the text accumulated so far
is non-empty (also before an empty piece); when no piece after the receiver's
own message is empty this is the join in which the separator is omitted next
to an empty side. -/
theorem Message_eq_joinPad (he : HTTPError) :
    he.Message = joinPad he.pieces ∧
      ((∀ s ∈ he.pieces.tail, s ≠ "") → he.Message = joinOmitEmpty he.pieces) := by
  have hloop := messageLoop_eq he he.message
  have hM : he.Message = joinPad he.pieces := by
    unfold HTTPError.Message joinPad
    simp only [String.empty_append]
    rw [hloop]
    conv_rhs => rw [pieces_eq_cons he, List.foldl_cons]
    simp
  refine ⟨hM, ?_⟩
  intro hall
  unfold HTTPError.Message
  simp only [String.empty_append]
  rw [hloop, pieces_eq_cons he, List.tail_cons]
  by_cases hm : he.message = ""
  · rw [hm]
    cases hrest : he.pieces.tail with
    | nil => simp [joinOmitEmpty]
    | cons r rest =>
      rw [hrest] at hall
      have hr : r ≠ "" := hall r (List.mem_cons_self r rest)
      rw [List.foldl_cons]
      simp only [↓reduceIte]
      rw [foldl_pad_eq_joinOmitEmpty rest r hr
        (fun s hs => hall s (List.mem_cons_of_mem r hs))]
      conv_rhs => rw [joinOmitEmpty]
      simp
  · exact foldl_pad_eq_joinOmitEmpty _ _ hm hall

theorem Message_eq_joinPad_witness :
    (HTTPError.mk 0 "" (.http (.mk NotFound "missing" (.other "no rows") none [])) none
        []).Message = joinPad ["", "missing", "no rows"] ∧
      ((∀ s ∈ ["missing", "no rows"], s ≠ "") →
        (HTTPError.mk 0 "" (.http (.mk NotFound "missing" (.other "no rows") none [])) none
          []).Message = joinOmitEmpty ["", "missing", "no rows"]) :=
  Message_eq_joinPad
    (.mk 0 "" (.http (.mk NotFound "missing" (.other "no rows") none [])) none [])

/-- C2 (counterexample): on the chain `E(Message("a"), E(Message("a")))`
returns, whose layers carry the messages "a" and "" after duplicate
suppression, `Message()` is "a: " and so ends with a separator, while the join
that omits the separator next to an empty side is "a"; with an inner layer
"b" below the empty one the separator is doubled. -/
theorem Message_trailing_separator :
    E [.message "a", .httpError (some (.mk 0 "a" .nil none [1]))] [1] =
        .ok (.mk 0 "a" (.http (.mk 0 "" .nil none [])) none [1]) ∧
      (HTTPError.mk 0 "a" (.http (.mk 0 "" .nil none [])) none [1]).pieces = ["a", ""] ∧
      (HTTPError.mk 0 "a" (.http (.mk 0 "" .nil none [])) none [1]).Message = "a: " ∧
      joinOmitEmpty ["a", ""] = "a" ∧
      (HTTPError.mk 0 "a" (.http (.mk 0 "" .nil none [])) none [1]).Message ≠
        joinOmitEmpty (HTTPError.mk 0 "a" (.http (.mk 0 "" .nil none [])) none [1]).pieces ∧
      (HTTPError.mk 0 "a" (.http (.mk 0 "" (.http (.mk 0 "b" .nil none [])) none [])) none
        []).Message = "a: : b" :=
  ⟨rfl, by decide, by decide, by decide, by decide, by decide⟩

/-! ## The status table -/

theorem HttpStatus_table_aux (k : Nat) :
    kind.HttpStatus k =
      if k = 2 ∨ k = 5 ∨ k = 7 then 400
      else if k = 1 then 401
      else if k = 8 then 404
      else if k = 4 then 502
      else 500 := by
  by_cases hk : k ≤ 10
  · interval_cases k <;> decide
  · have e1 : k ≠ 1 := by omega
    have e2 : k ≠ 2 := by omega
    have e3 : k ≠ 3 := by omega
    have e4 : k ≠ 4 := by omega
    have e5 : k ≠ 5 := by omega
    have e6 : k ≠ 6 := by omega
    have e7 : k ≠ 7 := by omega
    have e8 : k ≠ 8 := by omega
    have e10 : k ≠ 10 := by omega
    simp [kind.HttpStatus, UnauthorizedCredential, InvalidCredential, RepositoryError,
      SupplierError, ValidationError, JSONError, InvalidInput, NotFound, CacheMalfunction,
      StatusInternalServerError, e1, e2, e3, e4, e5, e6, e7, e8, e10]

theorem HttpStatus_mem (k : kind) : kind.HttpStatus k ∈ [400, 401, 404, 500, 502] := by
  rw [HttpStatus_table_aux k]
  repeat' split
  all_goals decide

theorem statusLoop_is_HttpStatus (he : HTTPError) :
    ∀ copy : HTTPError, ∃ k : kind, HTTPError.statusLoop he copy = kind.HttpStatus k
  | .mk _ _ .nil _ _ => ⟨he.kind, by simp [HTTPError.statusLoop]⟩
  | .mk _ _ (.other _) _ _ => ⟨he.kind, by simp [HTTPError.statusLoop]⟩
  | .mk _ _ (.http p) _ _ => by
    by_cases hk : p.kind = 0
    · obtain ⟨k, hk2⟩ := statusLoop_is_HttpStatus he p
      exact ⟨k, by simp [HTTPError.statusLoop, hk, hk2]⟩
    · exact ⟨p.kind, by simp [HTTPError.statusLoop, hk]⟩

theorem Status_is_HttpStatus (he : HTTPError) : ∃ k : kind, he.Status = kind.HttpStatus k := by
  unfold HTTPError.Status
  split
  · exact ⟨he.kind, rfl⟩
  · exact statusLoop_is_HttpStatus he he

/-- C11: `HttpStatus()` is 400 for `InvalidCredential`, `ValidationError` and
`InvalidInput`, 401 for `UnauthorizedCredential`, 404 for `NotFound`, 502 for
`SupplierError` and 500 for every other value (0 and the values above the last
category included); so `HttpStatus()` and `Status()` always return one of 400,
401, 404, 500, 502. -/
theorem HttpStatus_table :
    (∀ k : kind, kind.HttpStatus k =
      if k = InvalidCredential ∨ k = ValidationError ∨ k = InvalidInput then 400
      else if k = UnauthorizedCredential then 401
      else if k = NotFound then 404
      else if k = SupplierError then 502
      else 500) ∧
    (∀ k : kind, kind.HttpStatus k ∈ [400, 401, 404, 500, 502]) ∧
    (∀ he : HTTPError, he.Status ∈ [400, 401, 404, 500, 502]) := by
  refine ⟨fun k => HttpStatus_table_aux k, HttpStatus_mem, ?_⟩
  intro he
  obtain ⟨k, hk⟩ := Status_is_HttpStatus he
  rw [hk]
  exact HttpStatus_mem k

/-! ## Transparent layers -/

theorem Error_length_ne_zero (e : HTTPError) : e.Error.length ≠ 0 := by
  have h : 0 < e.Error.length := by
    cases e with
    | mk k m err ps cs =>
      cases err <;> simp only [HTTPError.Error] <;> exact floor_length_pos _
  omega

theorem Error_eq_floor_of_isZero (p : HTTPError) (h : p.isZero = true) :
    p.Error = "no error" := by
  cases p with
  | mk k m err ps cs =>
    cases err with
    | nil =>
      simp [HTTPError.isZero, GoError.isNil] at h
      obtain ⟨hk, hm⟩ := h
      subst hk
      subst hm
      rfl
    | http q => simp [HTTPError.isZero, GoError.isNil] at h
    | other t => simp [HTTPError.isZero, GoError.isNil] at h

theorem Error_blank_layer (p : HTTPError) (ps : Option Params) (cs : List Nat) :
    (HTTPError.mk 0 "" (.http p) ps cs).Error = p.Error := by
  simp only [HTTPError.Error, ne_eq, not_true_eq_false, ↓reduceIte, pad_nil,
    String.empty_append]
  cases hz : p.isZero with
  | true =>
    simp only [Bool.not_true, Bool.false_eq_true, ↓reduceIte]
    rw [Error_eq_floor_of_isZero p hz]
    rfl
  | false =>
    simp only [Bool.not_false, ↓reduceIte, Error_length_ne_zero p]

/-- C20: a layer with no kind and no message is transparent to rendering: for
every `HTTPError` `e` with kind 0 and empty message whose `err` is an
`*HTTPError` `p`, zero or not, `e.Error() = p.Error()`. -/
theorem Error_transparent_layer (e p : HTTPError) (hk : e.kind = 0) (hm : e.message = "")
    (herr : e.err = .http p) : e.Error = p.Error := by
  cases e with
  | mk k m err ps cs =>
    simp only [kind_mk, message_mk, err_mk] at hk hm herr
    subst hk
    subst hm
    subst herr
    exact Error_blank_layer p ps cs

theorem Error_transparent_layer_witness :
    (HTTPError.mk 0 "" (.http (.mk NotFound "missing" (.other "no rows") none [])) none
        [1, 2]).Error =
      (HTTPError.mk NotFound "missing" (.other "no rows") none []).Error :=
  Error_transparent_layer _ _ rfl rfl rfl

/-! ## Coalescing keeps every frame -/

theorem populateStack_merged (k : kind) (m : Message) (ps : Option Params) (cs : List Nat)
    (k2 : kind) (m2 : Message) (err2 : GoError) (ps2 : Option Params) (cs2 B : List Nat)
    (hlast : ∃ x, cs2.getLast? = some x ∧ B.getLast? = some x) :
    ∃ i, CommonSuffix cs2 B i ∧
      (HTTPError.mk k m (.http (.mk k2 m2 err2 ps2 cs2)) ps cs).populateStack B =
        .mk k m (.http (.mk k2 m2 err2 ps2 [])) ps (cs2.take (cs2.length - i) ++ B) := by
  have hspec := suffixLoop_start B cs2
  simp only [HTTPError.populateStack]
  rcases hsl : suffixLoop B cs2 B.length 0 false with ⟨i, ok⟩
  rw [hsl] at hspec
  simp only [] at hspec
  have hpos : 0 < i := hspec.1.2 1 ((commonSuffix_one_iff cs2 B).mpr hlast)
  have hok : ok = true := hspec.2.mpr hpos
  subst hok
  exact ⟨i, hspec.1.1, rfl⟩

/-- C19: whenever `populateStack` merges (the wrapped stack `A` and the fresh
stack `B` end in the same frame), `A` is a sublist (order-preserving
subsequence) of the merged outer stack and `B` is a suffix of it. -/
theorem populateStack_keeps_frames (e e2 : HTTPError) (B : List Nat)
    (herr : e.err = .http e2)
    (hlast : ∃ x, e2.callers.getLast? = some x ∧ B.getLast? = some x) :
    e2.callers.Sublist (e.populateStack B).callers ∧ B <:+ (e.populateStack B).callers := by
  cases e with
  | mk k m err ps cs =>
    cases e2 with
    | mk k2 m2 err2 ps2 cs2 =>
      simp only [err_mk] at herr
      subst herr
      simp only [callers_mk] at hlast ⊢
      obtain ⟨i, hcs, heq⟩ := populateStack_merged k m ps cs k2 m2 err2 ps2 cs2 B hlast
      rw [heq]
      simp only [callers_mk]
      refine ⟨?_, List.suffix_append _ _⟩
      have hsplit : cs2 = cs2.take (cs2.length - i) ++ cs2.drop (cs2.length - i) :=
        (List.take_append_drop _ _).symm
      have hsub : (cs2.take (cs2.length - i) ++ cs2.drop (cs2.length - i)).Sublist
          (cs2.take (cs2.length - i) ++ B) := by
        apply List.Sublist.append (List.Sublist.refl _)
        rw [hcs.2.2]
        exact List.drop_sublist _ _
      rw [← hsplit] at hsub
      exact hsub

theorem populateStack_keeps_frames_witness :
    (∃ x, (HTTPError.mk NotFound "missing" .nil none [7, 8, 2, 3]).callers.getLast? = some x ∧
        [1, 2, 3].getLast? = some x) ∧
      (HTTPError.mk NotFound "missing" .nil none [7, 8, 2, 3]).callers.Sublist
        ((HTTPError.mk 0 "" (.http (.mk NotFound "missing" .nil none [7, 8, 2, 3])) none
          []).populateStack [1, 2, 3]).callers ∧
      [1, 2, 3] <:+
        ((HTTPError.mk 0 "" (.http (.mk NotFound "missing" .nil none [7, 8, 2, 3])) none
          []).populateStack [1, 2, 3]).callers :=
  ⟨⟨3, by decide, by decide⟩,
    populateStack_keeps_frames _ (.mk NotFound "missing" .nil none [7, 8, 2, 3]) [1, 2, 3] rfl
      ⟨3, by decide, by decide⟩⟩

/-! ## The argument loop of the builder -/

theorem assignArgs_ok (args : List Arg) :
    ∀ e0 : HTTPError, (∀ a ∈ args, a.isNilValue = false) →
      assignArgs e0 args = .ok (.mk
        ((args.filterMap Arg.kind?).getLast?.getD e0.kind)
        ((args.filterMap Arg.message?).getLast?.getD e0.message)
        ((wrappedArg args).getD e0.err)
        (((args.filterMap Arg.params?).getLast?).or e0.params)
        e0.callers) := by
  induction args with
  | nil =>
    intro e0 _
    simp [assignArgs, wrappedArg, mk_eta]
  | cons arg rest ih =>
    intro e0 hall
    have hrest : ∀ a ∈ rest, a.isNilValue = false :=
      fun a ha => hall a (List.mem_cons_of_mem arg ha)
    have harg : arg.isNilValue = false := hall arg (List.mem_cons_self arg rest)
    cases arg with
    | message m =>
      simp only [assignArgs, assignArg]
      rw [ih _ hrest]
      simp [wrappedArg, Arg.kind?, Arg.message?, Arg.params?, Arg.cause?, List.getLast?_cons]
    | kind k =>
      simp only [assignArgs, assignArg]
      rw [ih _ hrest]
      simp [wrappedArg, Arg.kind?, Arg.message?, Arg.params?, Arg.cause?, List.getLast?_cons]
    | httpError p =>
      cases p with
      | none => simp [Arg.isNilValue] at harg
      | some a =>
        simp only [assignArgs, assignArg]
        rw [ih _ hrest]
        simp [wrappedArg, Arg.kind?, Arg.message?, Arg.params?, Arg.cause?,
          List.getLast?_cons]
    | error t =>
      simp only [assignArgs, assignArg]
      rw [ih _ hrest]
      simp [wrappedArg, Arg.kind?, Arg.message?, Arg.params?, Arg.cause?, List.getLast?_cons]
    | params v =>
      simp only [assignArgs, assignArg]
      rw [ih _ hrest]
      simp only [wrappedArg, Arg.kind?, Arg.message?, Arg.params?, Arg.cause?,
        List.filterMap_cons, kind_mk, message_mk, err_mk, params_mk, callers_mk,
        List.getLast?_cons]
      cases (List.filterMap Arg.params? rest).getLast? <;> rfl
    | nil => simp [Arg.isNilValue] at harg

theorem assignArgs_error (args : List Arg) :
    ∀ e0 : HTTPError, (∃ a ∈ args, a.isNilValue = true) →
      ∃ msg, assignArgs e0 args = .error msg := by
  induction args with
  | nil =>
    intro e0 h
    obtain ⟨a, ha, _⟩ := h
    simp at ha
  | cons arg rest ih =>
    intro e0 h
    cases h1 : assignArg e0 arg with
    | error msg => exact ⟨msg, by simp [assignArgs, h1]⟩
    | ok e1 =>
      simp only [assignArgs, h1]
      apply ih
      obtain ⟨a, ha, hnil⟩ := h
      rcases List.mem_cons.mp ha with hEq | hmem
      · subst hEq
        cases a with
        | nil => simp [assignArg] at h1
        | httpError p =>
          cases p with
          | none => simp [assignArg] at h1
          | some q => simp [Arg.isNilValue] at hnil
        | message m => simp [Arg.isNilValue] at hnil
        | kind k => simp [Arg.isNilValue] at hnil
        | error t => simp [Arg.isNilValue] at hnil
        | params v => simp [Arg.isNilValue] at hnil
      · exact ⟨a, hmem, hnil⟩

theorem E_ok_of_no_nil (args : List Arg) (fresh : List Nat) (hne : args ≠ [])
    (hall : ∀ a ∈ args, a.isNilValue = false) :
    E args fresh = .ok (dedup ((HTTPError.mk
        ((args.filterMap Arg.kind?).getLast?.getD 0)
        ((args.filterMap Arg.message?).getLast?.getD "")
        ((wrappedArg args).getD .nil)
        ((args.filterMap Arg.params?).getLast?)
        []).populateStack fresh)) := by
  have hlen : args.length ≠ 0 := fun h => hne (List.length_eq_zero.mp h)
  unfold E
  rw [if_neg hlen, assignArgs_ok args _ hall]
  simp

theorem E_error_of_nil (args : List Arg) (fresh : List Nat)
    (h : ∃ a ∈ args, a.isNilValue = true) : ∃ msg, E args fresh = .error msg := by
  unfold E
  split
  · exact ⟨_, rfl⟩
  · obtain ⟨msg, hmsg⟩ := assignArgs_error args (.mk 0 "" .nil none []) h
    rw [hmsg]
    exact ⟨msg, rfl⟩

theorem no_nil_of_E_ok (args : List Arg) (fresh : List Nat) (e : HTTPError)
    (hE : E args fresh = .ok e) : args ≠ [] ∧ ∀ a ∈ args, a.isNilValue = false := by
  constructor
  · intro h
    subst h
    simp [E] at hE
  · intro a ha
    cases hnil : a.isNilValue with
    | false => rfl
    | true =>
      obtain ⟨msg, hmsg⟩ := E_error_of_nil args fresh ⟨a, ha, hnil⟩
      rw [hmsg] at hE
      simp at hE

/-! ## Panics of the builder -/

/-- C12 (as amended): `E` called with an empty argument list panics and
returns no value; for every non-empty list of arguments none of which is nil
(neither the nil interface nor a nil `*HTTPError`) it returns an `*HTTPError`
without panicking. -/
theorem E_returns_of_no_nil :
    (∀ fresh : List Nat, E [] fresh = .error "call to errors.E with no arguments") ∧
      ∀ (args : List Arg) (fresh : List Nat), args ≠ [] →
        (∀ a ∈ args, a.isNilValue = false) → ∃ e : HTTPError, E args fresh = .ok e :=
  ⟨fun _ => rfl, fun args fresh hne hall => ⟨_, E_ok_of_no_nil args fresh hne hall⟩⟩

theorem E_returns_of_no_nil_witness :
    ([Arg.kind NotFound, .message "missing", .params (.int 7), .error "no rows"] ≠ [] ∧
      ∀ a ∈ [Arg.kind NotFound, .message "missing", .params (.int 7), .error "no rows"],
        a.isNilValue = false) ∧
      ∃ e : HTTPError,
        E [.kind NotFound, .message "missing", .params (.int 7), .error "no rows"] [1, 2] =
          .ok e :=
  ⟨⟨by simp, by simp [Arg.isNilValue]⟩,
    E_returns_of_no_nil.2 _ [1, 2] (by simp) (by simp [Arg.isNilValue])⟩

/-- C12 (counterexample): the one-element list holding a nil `*HTTPError` is
non-empty and its argument has a supported type, yet `E` panics on the
dereference `copy := *arg`. -/
theorem E_nil_pointer_panics :
    [Arg.httpError none] ≠ [] ∧ [Arg.httpError none].all Arg.hasType = true ∧
      E [.httpError none] [1, 2] =
        .error "invalid memory address or nil pointer dereference" :=
  ⟨by simp, by decide, rfl⟩

/-- C13 (evaluation of the code): a plain string and an int, which are not
among the argument types named in the documentation of `E`, select
`case Params` (`Params` is `interface{}`); `E` stores them in `params` and
returns normally instead of panicking. -/
theorem E_accepts_any_value (fresh : List Nat) :
    E [.params (.str "oops")] fresh = .ok (.mk 0 "" .nil (some (.str "oops")) fresh) ∧
      E [.kind NotFound, .params (.int 42)] fresh =
        .ok (.mk NotFound "" .nil (some (.int 42)) fresh) :=
  ⟨rfl, rfl⟩

/-! ## Argument order -/

theorem eq_of_perm_of_length_le_one {α : Type} (l l2 : List α) (hperm : l.Perm l2)
    (hlen : l.length ≤ 1) : l = l2 := by
  cases l with
  | nil => exact hperm.nil_eq
  | cons a rest =>
    cases rest with
    | nil => exact (List.perm_singleton.mp hperm.symm).symm
    | cons b rest2 =>
      simp only [List.length_cons] at hlen
      omega

/-- C14 (as amended): `E` is order-independent on argument lists that assign
each field at most once: if the list holds at most one kind, one `Message`,
one cause (`*HTTPError` or other error) and one `Params` value and `E` does not
panic on it, then on every permutation of the list, with the same captured
stack, `E` returns the same error (kind, message, cause, params and frames). -/
theorem E_perm (args args2 : List Arg) (fresh : List Nat) (e : HTTPError)
    (hperm : args.Perm args2)
    (hk : (args.filterMap Arg.kind?).length ≤ 1)
    (hm : (args.filterMap Arg.message?).length ≤ 1)
    (hc : (args.filterMap Arg.cause?).length ≤ 1)
    (hp : (args.filterMap Arg.params?).length ≤ 1)
    (hE : E args fresh = .ok e) : E args2 fresh = .ok e := by
  obtain ⟨hne, hall⟩ := no_nil_of_E_ok args fresh e hE
  have hne2 : args2 ≠ [] := by
    intro h
    subst h
    exact hne hperm.eq_nil
  have hall2 : ∀ a ∈ args2, a.isNilValue = false :=
    fun a ha => hall a (hperm.mem_iff.mpr ha)
  rw [E_ok_of_no_nil args fresh hne hall] at hE
  rw [E_ok_of_no_nil args2 fresh hne2 hall2, ← hE]
  unfold wrappedArg
  rw [← eq_of_perm_of_length_le_one _ _ (hperm.filterMap Arg.kind?) hk,
    ← eq_of_perm_of_length_le_one _ _ (hperm.filterMap Arg.message?) hm,
    ← eq_of_perm_of_length_le_one _ _ (hperm.filterMap Arg.cause?) hc,
    ← eq_of_perm_of_length_le_one _ _ (hperm.filterMap Arg.params?) hp]

theorem E_perm_witness :
    List.Perm [Arg.kind NotFound, .message "lookup",
        .httpError (some (.mk NotFound "missing" .nil none [7, 2, 3]))]
      [.httpError (some (.mk NotFound "missing" .nil none [7, 2, 3])), .kind NotFound,
        .message "lookup"] ∧
      E [.httpError (some (.mk NotFound "missing" .nil none [7, 2, 3])), .kind NotFound,
          .message "lookup"] [1, 2, 3] =
        .ok (.mk NotFound "lookup" (.http (.mk 0 "missing" .nil none [])) none [7, 1, 2, 3]) := by
  have hperm : List.Perm [Arg.kind NotFound, .message "lookup",
        .httpError (some (.mk NotFound "missing" .nil none [7, 2, 3]))]
      [.httpError (some (.mk NotFound "missing" .nil none [7, 2, 3])), .kind NotFound,
        .message "lookup"] :=
    @List.perm_append_comm Arg [Arg.kind NotFound, .message "lookup"]
      [.httpError (some (.mk NotFound "missing" .nil none [7, 2, 3]))]
  exact ⟨hperm, E_perm _ _ [1, 2, 3] _ hperm (by decide) (by decide) (by decide) (by decide) rfl⟩

/-- C14 (counterexample): `E(NotFound, ValidationError)` and its permutation
`E(ValidationError, NotFound)` both return, with kinds `ValidationError` and
`NotFound`: the last argument of a type wins. -/
theorem E_order_matters :
    List.Perm [Arg.kind NotFound, .kind ValidationError] [.kind ValidationError, .kind NotFound] ∧
      E [.kind NotFound, .kind ValidationError] [1, 2] =
        .ok (.mk ValidationError "" .nil none [1, 2]) ∧
      E [.kind ValidationError, .kind NotFound] [1, 2] = .ok (.mk NotFound "" .nil none [1, 2]) ∧
      (HTTPError.mk ValidationError "" .nil none [1, 2]).kind ≠
        (HTTPError.mk NotFound "" .nil none [1, 2]).kind :=
  ⟨List.Perm.swap _ _ _, rfl, rfl, by decide⟩

/-! ## Wrapping without a kind -/

theorem statusLoop_receiver_congr (he he2 : HTTPError) (h : he.kind = he2.kind) :
    ∀ copy : HTTPError, HTTPError.statusLoop he copy = HTTPError.statusLoop he2 copy
  | .mk _ _ .nil _ _ => by simp [HTTPError.statusLoop, h]
  | .mk _ _ (.other _) _ _ => by simp [HTTPError.statusLoop, h]
  | .mk _ _ (.http p) _ _ => by
    simp only [HTTPError.statusLoop]
    rw [statusLoop_receiver_congr he he2 h p]

theorem statusLoop_err_congr (he copy copy2 : HTTPError) (h : copy.err = copy2.err) :
    HTTPError.statusLoop he copy = HTTPError.statusLoop he copy2 := by
  cases copy with
  | mk k m err ps cs =>
    cases copy2 with
    | mk k2 m2 err2 ps2 cs2 =>
      simp only [err_mk] at h
      subst h
      cases err <;> simp [HTTPError.statusLoop]

theorem Status_wrap_no_kind (inner : HTTPError) (m m2 : Message) (ps : Option Params)
    (cs cs2 : List Nat) :
    (HTTPError.mk 0 m (.http (.mk inner.kind m2 inner.err inner.params cs2)) ps cs).Status =
      inner.Status := by
  by_cases hk : inner.kind = 0
  · simp only [HTTPError.Status, kind_mk, ne_eq, not_true_eq_false, ↓reduceIte, hk,
      HTTPError.statusLoop]
    rw [statusLoop_receiver_congr _ inner (by simp [hk]),
      statusLoop_err_congr inner _ inner (by simp)]
  · simp [HTTPError.Status, HTTPError.statusLoop, hk]

theorem getLast?_of_forall_eq {α : Type} (l : List α) (c : α) (hne : l ≠ [])
    (hall : ∀ x ∈ l, x = c) : l.getLast? = some c := by
  cases h : l.getLast? with
  | none => exact absurd (List.getLast?_eq_none_iff.mp h) hne
  | some x => rw [hall x (List.mem_of_getLast?_eq_some h)]

/-- C16: wrapping without a category preserves the status: for every
`*HTTPError` `inner` and every argument list that holds `inner` and otherwise
only `Message` and `Params` values, `E` returns an `outer` with
`outer.Status() = inner.Status()`; and for `inner = E(NotFound,
Message("missing"))`, `outer = E(inner)` has `Status() = 404` and
`Message() = "missing"`. -/
theorem E_wrap_keeps_status :
    (∀ (inner : HTTPError) (args : List Arg) (fresh : List Nat),
      Arg.httpError (some inner) ∈ args →
      (∀ a ∈ args, a = .httpError (some inner) ∨ (∃ m, a = .message m) ∨ ∃ v, a = .params v) →
      ∃ outer : HTTPError, E args fresh = .ok outer ∧ outer.Status = inner.Status) ∧
    ∀ fresh1 fresh2 : List Nat, ∃ inner outer : HTTPError,
      E [.kind NotFound, .message "missing"] fresh1 = .ok inner ∧
      E [.httpError (some inner)] fresh2 = .ok outer ∧
      outer.Status = 404 ∧ outer.Message = "missing" := by
  constructor
  · intro inner args fresh hmem hall
    have hne : args ≠ [] := List.ne_nil_of_mem hmem
    have hnil : ∀ a ∈ args, a.isNilValue = false := by
      intro a ha
      rcases hall a ha with h | ⟨m, h⟩ | ⟨v, h⟩ <;> subst h <;> rfl
    have hkinds : args.filterMap Arg.kind? = [] := by
      rw [List.filterMap_eq_nil_iff]
      intro a ha
      rcases hall a ha with h | ⟨m, h⟩ | ⟨v, h⟩ <;> subst h <;> rfl
    have hcause : wrappedArg args = some (.http inner) := by
      unfold wrappedArg
      apply getLast?_of_forall_eq
      · intro h
        have hin : GoError.http inner ∈ args.filterMap Arg.cause? :=
          List.mem_filterMap.mpr ⟨_, hmem, rfl⟩
        rw [h] at hin
        simp at hin
      · intro x hx
        obtain ⟨a, ha, hax⟩ := List.mem_filterMap.mp hx
        rcases hall a ha with h | ⟨m, h⟩ | ⟨v, h⟩ <;> subst h <;> simp [Arg.cause?] at hax
        exact hax.symm
    refine ⟨_, E_ok_of_no_nil args fresh hne hnil, ?_⟩
    rw [hkinds, hcause]
    obtain ⟨cs, cs2, hshape⟩ := populateStack_shape
      (.mk 0 ((args.filterMap Arg.message?).getLast?.getD "") (.http inner)
        ((args.filterMap Arg.params?).getLast?) []) fresh
    simp only [List.getLast?_nil, Option.getD_none, Option.getD_some]
    rw [hshape]
    simp only [kind_mk, message_mk, err_mk, params_mk]
    rw [dedup_http _ _ (err_mk _ _ _ _ _)]
    simp only [kind_mk, message_mk, err_mk, params_mk, callers_mk]
    have hkk : (if inner.kind = 0 then 0 else inner.kind) = inner.kind := by
      split
      · next h => exact h.symm
      · rfl
    rw [hkk]
    exact Status_wrap_no_kind inner _ _ _ _ _
  · intro fresh1 fresh2
    obtain ⟨cs, cs2, hshape⟩ := populateStack_shape
      (.mk 0 "" (.http (.mk NotFound "missing" .nil none fresh1)) none []) fresh2
    refine ⟨.mk NotFound "missing" .nil none fresh1,
      .mk 0 "" (.http (.mk NotFound "missing" .nil none cs2)) none cs, rfl, ?_, rfl, rfl⟩
    simp only [E, List.length_cons, List.length_nil, assignArgs, assignArg, kind_mk,
      message_mk, err_mk, params_mk, callers_mk]
    rw [hshape]
    simp [dedup, NotFound]

theorem E_wrap_keeps_status_witness :
    (Arg.httpError (some (.mk ValidationError "bad id" .nil none [7, 2, 3])) ∈
        [Arg.message "decode", .httpError (some (.mk ValidationError "bad id" .nil none [7, 2, 3])),
          .params (.int 7)]) ∧
      ∃ outer : HTTPError,
        E [.message "decode", .httpError (some (.mk ValidationError "bad id" .nil none [7, 2, 3])),
          .params (.int 7)] [1, 2, 3] = .ok outer ∧
        outer.Status = (HTTPError.mk ValidationError "bad id" .nil none [7, 2, 3]).Status :=
  ⟨by simp,
    E_wrap_keeps_status.1 (.mk ValidationError "bad id" .nil none [7, 2, 3]) _ [1, 2, 3]
      (by simp) (by
        intro a ha
        simp only [List.mem_cons, List.mem_singleton, List.not_mem_nil, or_false] at ha
        rcases ha with h | h | h
        · exact Or.inr (Or.inl ⟨_, h⟩)
        · exact Or.inl h
        · exact Or.inr (Or.inr ⟨_, h⟩))⟩

/-! ## Repeated re-tagging -/

theorem IsBlankChain.Error_eq :
    ∀ (d : Nat) (e : HTTPError), IsBlankChain d e → e.Error = "no error"
  | 0, .mk k m err ps cs, h => by
    simp only [IsBlankChain, kind_mk, message_mk, err_mk] at h
    obtain ⟨hk, hm, he⟩ := h
    subst hk
    subst hm
    subst he
    rfl
  | d + 1, .mk k m err ps cs, h => by
    simp only [IsBlankChain, kind_mk, message_mk, err_mk] at h
    obtain ⟨hk, hm, p, he, hp⟩ := h
    subst hk
    subst hm
    subst he
    rw [Error_blank_layer]
    exact IsBlankChain.Error_eq d p hp

theorem IsBlankChain.isZero_eq (d : Nat) (e : HTTPError) (h : IsBlankChain d e) :
    e.isZero = decide (d = 0) := by
  cases e with
  | mk k m err ps cs =>
    cases d with
    | zero =>
      simp only [IsBlankChain, kind_mk, message_mk, err_mk] at h
      obtain ⟨hk, hm, he⟩ := h
      subst hk
      subst hm
      subst he
      rfl
    | succ d =>
      simp only [IsBlankChain, kind_mk, message_mk, err_mk] at h
      obtain ⟨hk, hm, p, he, hp⟩ := h
      subst he
      simp [HTTPError.isZero, GoError.isNil]

theorem E_retag_step (K : kind) (M : Message) (w : HTTPError) (fresh : List Nat)
    (hk : w.kind = K) (hm : w.message = M) :
    ∃ cs cs2 : List Nat, E [.kind K, .message M, .httpError (some w)] fresh =
      .ok (.mk K M (.http (.mk 0 "" w.err w.params cs2)) none cs) := by
  obtain ⟨cs, cs2, hshape⟩ := populateStack_shape (.mk K M (.http w) none []) fresh
  refine ⟨cs, cs2, ?_⟩
  simp only [E, List.length_cons, List.length_nil, assignArgs, assignArg, kind_mk, message_mk,
    err_mk, params_mk, callers_mk]
  rw [hshape]
  simp only [kind_mk, message_mk, err_mk, params_mk]
  rw [dedup_http _ _ (err_mk _ _ _ _ _)]
  simp [hk, hm]

theorem retagged_shape (K : kind) (M : Message) (fresh : Nat → List Nat) :
    ∀ n : Nat, ∃ (err : GoError) (cs : List Nat),
      retagged K M fresh n = .ok (.mk K M err none cs) ∧
      match n with
      | 0 => err = .nil
      | j + 1 => ∃ p, err = .http p ∧ IsBlankChain j p
  | 0 => ⟨.nil, fresh 0, rfl, rfl⟩
  | j + 1 => by
    obtain ⟨err, cs, hw, hshape⟩ := retagged_shape K M fresh j
    obtain ⟨cs1, cs2, hE⟩ := E_retag_step K M (.mk K M err none cs) (fresh (j + 1)) rfl rfl
    simp only [err_mk, params_mk] at hE
    refine ⟨.http (.mk 0 "" err none cs2), cs1, ?_, .mk 0 "" err none cs2, rfl, ?_⟩
    · simp only [retagged, hw]
      exact hE
    · cases j with
      | zero =>
        simp only [] at hshape
        subst hshape
        exact ⟨rfl, rfl, rfl⟩
      | succ j2 =>
        simp only [] at hshape
        obtain ⟨p, hp, hblank⟩ := hshape
        subst hp
        exact ⟨rfl, rfl, p, rfl, hblank⟩

theorem Error_tagged_over_blank (K : kind) (M : Message) (hK : K ≠ 0) (hM : M ≠ "")
    (d : Nat) (p : HTTPError) (hp : IsBlankChain d p) (ps : Option Params) (cs : List Nat) :
    (HTTPError.mk K M (.http p) ps cs).Error =
      if d = 0 then kind.String K ++ ": " ++ M
      else kind.String K ++ ": " ++ M ++ separator ++ "no error" := by
  have hlen : (kind.String K).length ≠ 0 := kind_String_length_pos K
  have hlen2 : (kind.String K ++ ": " ++ M).length ≠ 0 := by
    simp only [String.length_append]
    omega
  have hlen3 : (kind.String K ++ ": " ++ M ++ separator ++ "no error").length ≠ 0 := by
    simp only [String.length_append]
    omega
  simp only [HTTPError.Error, pad_nil, String.empty_append, ne_eq, hK, not_false_eq_true,
    ↓reduceIte, hM, pad_of_ne _ _ hlen, hp.isZero_eq, hp.Error_eq]
  by_cases hd : d = 0
  · simp only [hd, decide_True, Bool.not_true, Bool.false_eq_true, ↓reduceIte, hlen2]
  · simp only [hd, decide_False, Bool.not_false, ↓reduceIte, pad_of_ne _ _ hlen2, hlen3]

/-- C17 (as amended): for every non-zero kind `K`, non-empty message `M` and
`n >= 1`, with `w_1 = E(K, M)` and `w_{j+1} = E(K, M, w_j)`, `w_n.Error()` is
exactly `K.String() + ": " + M` for `n = 1` and `n = 2`; for `n >= 3` the
cleared cause has a cause of its own, is not `isZero`, and is rendered as
"no error" after the separator. (`retagged .. j` is `w_{j+1}`.) -/
theorem retagged_Error (K : kind) (M : Message) (fresh : Nat → List Nat)
    (hK : K ≠ 0) (hM : M ≠ "") (j : Nat) :
    ∃ w : HTTPError, retagged K M fresh j = .ok w ∧
      w.Error =
        if j ≤ 1 then kind.String K ++ ": " ++ M
        else kind.String K ++ ": " ++ M ++ separator ++ "no error" := by
  obtain ⟨err, cs, hw, hshape⟩ := retagged_shape K M fresh j
  refine ⟨_, hw, ?_⟩
  cases j with
  | zero =>
    simp only [] at hshape
    subst hshape
    have hlen : (kind.String K).length ≠ 0 := kind_String_length_pos K
    have hlen2 : (kind.String K ++ ": " ++ M).length ≠ 0 := by
      simp only [String.length_append]
      omega
    simp only [HTTPError.Error, pad_nil, String.empty_append, ne_eq, hK, not_false_eq_true,
      ↓reduceIte, hM, pad_of_ne _ _ hlen, hlen2, Nat.zero_le]
  | succ j2 =>
    simp only [] at hshape
    obtain ⟨p, hp, hblank⟩ := hshape
    subst hp
    rw [Error_tagged_over_blank K M hK hM j2 p hblank]
    by_cases hj : j2 = 0
    · simp [hj]
    · have : ¬ (j2 + 1 ≤ 1) := by omega
      simp [hj, this]

theorem retagged_Error_witness :
    (ValidationError ≠ 0 ∧ ("bad id" : Message) ≠ "") ∧
      ∃ w : HTTPError, retagged ValidationError "bad id" (fun _ => [1, 2]) 1 = .ok w ∧
        w.Error =
          if 1 ≤ 1 then kind.String ValidationError ++ ": " ++ "bad id"
          else kind.String ValidationError ++ ": " ++ "bad id" ++ separator ++ "no error" :=
  ⟨⟨by decide, by decide⟩,
    retagged_Error ValidationError "bad id" (fun _ => [1, 2]) (by decide) (by decide) 1⟩

/-- C17 (counterexample): for `K = ValidationError` and `M = "bad id"`, the
third value `w_3 = E(K, M, E(K, M, E(K, M)))` renders as
"VALIDATION_ERROR: bad id:\n\tno error", not as `K.String() + ": " + M`. -/
theorem retagged_three_times :
    retagged ValidationError "bad id" (fun _ => [1, 2]) 2 =
        .ok (.mk ValidationError "bad id"
          (.http (.mk 0 "" (.http (.mk 0 "" .nil none [])) none [])) none [1, 2]) ∧
      (HTTPError.mk ValidationError "bad id"
          (.http (.mk 0 "" (.http (.mk 0 "" .nil none [])) none [])) none [1, 2]).Error =
        "VALIDATION_ERROR: bad id:\n\tno error" ∧
      (HTTPError.mk ValidationError "bad id"
          (.http (.mk 0 "" (.http (.mk 0 "" .nil none [])) none [])) none [1, 2]).Error ≠
        kind.String ValidationError ++ ": " ++ "bad id" :=
  ⟨rfl, by decide, by decide⟩

/-! ## Abbreviation of names in the stack trace -/

theorem IndexAny_spec (chars : List Char) :
    ∀ s : List Char, IndexAny s chars = -1 ∨
      ∃ n : Nat, IndexAny s chars = (n : Int) ∧ n < s.length ∧
        ∃ c, s[n]? = some c ∧ c ∈ chars
  | [] => Or.inl rfl
  | c :: rest => by
    unfold IndexAny
    by_cases hc : c ∈ chars
    · right
      exact ⟨0, by simp [hc], by simp, c, by simp, hc⟩
    · rcases IndexAny_spec chars rest with h | ⟨n, hn, hlt, d, hd, hmem⟩
      · left
        simp [hc, h]
      · right
        refine ⟨n + 1, ?_, by simp only [List.length_cons]; omega, d, by simpa using hd, hmem⟩
        simp only [hc, ↓reduceIte, hn]
        have : ¬ ((n : Int) < 0) := by omega
        simp only [this, ↓reduceIte]
        push_cast
        rfl

theorem trimLoop_spec (name prev : List Char) :
    ∀ fuel trim : Nat, trim ≤ name.length → name.length + 1 - trim ≤ fuel →
      (0 < trim → name.take (trim - 1) <+: prev ∧
        ∃ c, name[trim - 1]? = some c ∧ c ∈ ['.', '/']) →
      ∃ t, trimLoop name prev fuel trim = some t ∧ t ≤ name.length ∧
        (0 < t → name.take (t - 1) <+: prev ∧
          ∃ c, name[t - 1]? = some c ∧ c ∈ ['.', '/']) := by
  intro fuel
  induction fuel with
  | zero =>
    intro trim hle hfuel _
    omega
  | succ fuel ih =>
    intro trim hle hfuel hinv
    unfold trimLoop
    simp only []
    rcases IndexAny_spec ['.', '/'] (name.drop trim) with h | ⟨n, hn, hlt, c, hc, hmem⟩
    · rw [h]
      exact ⟨trim, by simp, hle, hinv⟩
    · rw [hn]
      have hnn : ¬ ((n : Int) < 0) := by omega
      simp only [hnn, ↓reduceIte, Int.toNat_ofNat]
      rw [List.length_drop] at hlt
      by_cases hp : HasPrefix prev (name.take (n + trim)) = true
      · simp only [hp, Bool.not_true, Bool.false_eq_true, ↓reduceIte]
        apply ih (trim + (n + 1)) (by omega) (by omega)
        intro _
        have e1 : trim + (n + 1) - 1 = n + trim := by omega
        rw [e1]
        refine ⟨List.isPrefixOf_iff_prefix.mp hp, c, ?_, hmem⟩
        rw [List.getElem?_drop] at hc
        rw [Nat.add_comm n trim]
        exact hc
      · simp only [hp, Bool.not_false, ↓reduceIte]
        exact ⟨trim, rfl, hle, hinv⟩

/-- C18 (as amended): for every function name and every previously printed
name `prev`, the abbreviation loop of `printStack` terminates with
`0 <= trim <= len(name)`, and whenever `trim > 0` the element `name[trim-1]` is
a separator ('.' or '/') and `prev` starts with `name[:trim-1]`, the part
before that separator. -/
theorem trimLoop_result (name prev : List Char) :
    ∃ trim : Nat, trimLoop name prev (name.length + 1) 0 = some trim ∧
      0 ≤ trim ∧ trim ≤ name.length ∧
      (0 < trim → name.take (trim - 1) <+: prev ∧
        ∃ c, name[trim - 1]? = some c ∧ (c = '.' ∨ c = '/')) := by
  obtain ⟨t, ht, hle, hinv⟩ :=
    trimLoop_spec name prev (name.length + 1) 0 (Nat.zero_le _) (by omega)
      (fun h => absurd h (Nat.lt_irrefl 0))
  refine ⟨t, ht, Nat.zero_le _, hle, ?_⟩
  intro hpos
  obtain ⟨hpre, c, hc, hmem⟩ := hinv hpos
  refine ⟨hpre, c, hc, ?_⟩
  simpa using hmem

theorem trimLoop_result_witness :
    ∃ trim : Nat,
      trimLoop "main.run.func1".data "main.run".data ("main.run.func1".data.length + 1) 0 =
        some trim ∧
      0 ≤ trim ∧ trim ≤ "main.run.func1".data.length ∧
      (0 < trim → "main.run.func1".data.take (trim - 1) <+: "main.run".data ∧
        ∃ c, "main.run.func1".data[trim - 1]? = some c ∧ (c = '.' ∨ c = '/')) :=
  trimLoop_result "main.run.func1".data "main.run".data

/-- C18 (counterexample): with `prev = "main.run"` and
`name = "main.run.func1"` the loop ends with `trim = 9 > 0`, and
`name[:9] = "main.run."` is not shared: `prev` does not start with it. -/
theorem trimLoop_skips_separator :
    trimLoop "main.run.func1".data "main.run".data ("main.run.func1".data.length + 1) 0 =
        some 9 ∧
      "main.run.func1".data.take 9 = "main.run.".data ∧
      HasPrefix "main.run".data ("main.run.func1".data.take 9) = false ∧
      ¬ ("main.run.func1".data.take 9 <+: "main.run".data) := by
  refine ⟨by decide, by decide, by decide, ?_⟩
  intro h
  have := List.isPrefixOf_iff_prefix.mpr h
  revert this
  decide

/-! ## The argument of the builder is left unchanged -/

theorem Heap.update_get_ne (h : Heap) (a b : Nat) (f : Cell → Cell) (hab : a ≠ b) :
    (h.update a f)[b]? = h[b]? := by
  unfold Heap.update
  split
  · exact List.getElem?_set_ne hab
  · rfl

theorem Heap.update_get_self (h : Heap) (a : Nat) (f : Cell → Cell) :
    (h.update a f)[a]? = (h[a]?).map f := by
  unfold Heap.update
  split
  · next c hc =>
    have hlt : a < h.length := (List.getElem?_eq_some.mp hc).1
    rw [List.getElem?_set_self hlt, hc]
    rfl
  · next hc => simp [hc]

theorem Heap.length_update (h : Heap) (a : Nat) (f : Cell → Cell) :
    (h.update a f).length = h.length := by
  unfold Heap.update
  split
  · exact List.length_set _ _ _
  · rfl

theorem Heap.Keeps.update {h0 h : Heap} (hk : Heap.Keeps h0 h) (a : Nat) (f : Cell → Cell)
    (ha : h0.length ≤ a) : Heap.Keeps h0 (h.update a f) := by
  intro b c hb
  have hlt : b < h0.length := (List.getElem?_eq_some.mp hb).1
  rw [Heap.update_get_ne h a b f (by omega)]
  exact hk b c hb

theorem Heap.Keeps.append {h0 h : Heap} (hk : Heap.Keeps h0 h) (cell : Cell) :
    Heap.Keeps h0 (h ++ [cell]) := by
  intro b c hb
  have hlt : b < h.length := (List.getElem?_eq_some.mp (hk b c hb)).1
  rw [List.getElem?_append_left hlt]
  exact hk b c hb

theorem Heap.CauseOutside.update_same_err {h0 h : Heap} {e : Nat}
    (hc : Heap.CauseOutside h0 h e) (a : Nat) (f : Cell → Cell)
    (hf : ∀ c, (f c).err = c.err) : Heap.CauseOutside h0 (h.update a f) e := by
  intro ce c hce herr
  by_cases hae : a = e
  · subst hae
    rw [Heap.update_get_self] at hce
    cases hget : h[a]? with
    | none => rw [hget] at hce; simp at hce
    | some c0 =>
      rw [hget] at hce
      simp only [Option.map_some', Option.some.injEq] at hce
      subst hce
      rw [hf] at herr
      exact hc c0 c hget herr
  · rw [Heap.update_get_ne h a e f hae] at hce
    exact hc ce c hce herr

theorem Heap.CauseOutside.update_set_err {h0 h : Heap} {e : Nat} (f : Cell → Cell)
    (hf : ∀ c0 c, (f c0).err = .ptr c → h0.length ≤ c) :
    Heap.CauseOutside h0 (h.update e f) e := by
  intro ce c hce herr
  rw [Heap.update_get_self] at hce
  cases hget : h[e]? with
  | none => rw [hget] at hce; simp at hce
  | some c0 =>
    rw [hget] at hce
    simp only [Option.map_some', Option.some.injEq] at hce
    subst hce
    exact hf c0 c herr

theorem Mem.assignArg_inv (h0 h h1 : Heap) (e : Nat) (arg : PtrArg)
    (hk : Heap.Keeps h0 h) (hc : Heap.CauseOutside h0 h e) (he : h0.length ≤ e)
    (hlen : h0.length ≤ h.length) (h1eq : Mem.assignArg h e arg = .ok h1) :
    Heap.Keeps h0 h1 ∧ Heap.CauseOutside h0 h1 e ∧ h0.length ≤ h1.length := by
  cases arg with
  | message m =>
    simp only [Mem.assignArg, Except.ok.injEq] at h1eq
    subst h1eq
    exact ⟨hk.update e _ he, hc.update_same_err e _ (fun _ => rfl),
      by rw [Heap.length_update]; exact hlen⟩
  | kind k =>
    simp only [Mem.assignArg, Except.ok.injEq] at h1eq
    subst h1eq
    exact ⟨hk.update e _ he, hc.update_same_err e _ (fun _ => rfl),
      by rw [Heap.length_update]; exact hlen⟩
  | params v =>
    simp only [Mem.assignArg, Except.ok.injEq] at h1eq
    subst h1eq
    exact ⟨hk.update e _ he, hc.update_same_err e _ (fun _ => rfl),
      by rw [Heap.length_update]; exact hlen⟩
  | error t =>
    simp only [Mem.assignArg, Except.ok.injEq] at h1eq
    subst h1eq
    refine ⟨hk.update e _ he, Heap.CauseOutside.update_set_err _ ?_,
      by rw [Heap.length_update]; exact hlen⟩
    intro c0 c herr
    simp at herr
  | nil => simp [Mem.assignArg] at h1eq
  | httpError p =>
    cases p with
    | none => simp [Mem.assignArg] at h1eq
    | some a =>
      simp only [Mem.assignArg] at h1eq
      cases hget : h[a]? with
      | none => rw [hget] at h1eq; simp at h1eq
      | some cell =>
        rw [hget] at h1eq
        simp only [Except.ok.injEq] at h1eq
        subst h1eq
        refine ⟨(hk.append cell).update e _ he, Heap.CauseOutside.update_set_err _ ?_, ?_⟩
        · intro c0 c herr
          simp only [ErrRef.ptr.injEq] at herr
          omega
        · rw [Heap.length_update, List.length_append]
          omega

theorem Mem.assignArgs_inv (h0 : Heap) (e : Nat) (he : h0.length ≤ e) (args : List PtrArg) :
    ∀ h h1 : Heap, Heap.Keeps h0 h → Heap.CauseOutside h0 h e → h0.length ≤ h.length →
      Mem.assignArgs h e args = .ok h1 →
      Heap.Keeps h0 h1 ∧ Heap.CauseOutside h0 h1 e := by
  induction args with
  | nil =>
    intro h h1 hk hc _ h1eq
    simp only [Mem.assignArgs, Except.ok.injEq] at h1eq
    subst h1eq
    exact ⟨hk, hc⟩
  | cons arg rest ih =>
    intro h h1 hk hc hlen h1eq
    simp only [Mem.assignArgs] at h1eq
    cases hstep : Mem.assignArg h e arg with
    | error msg => rw [hstep] at h1eq; simp at h1eq
    | ok hmid =>
      rw [hstep] at h1eq
      obtain ⟨hk2, hc2, hlen2⟩ := Mem.assignArg_inv h0 h hmid e arg hk hc he hlen hstep
      exact ih hmid h1 hk2 hc2 hlen2 h1eq

theorem Mem.populateStack_inv (h0 h : Heap) (e : Nat) (fresh : List Nat)
    (hk : Heap.Keeps h0 h) (hc : Heap.CauseOutside h0 h e) (he : h0.length ≤ e) :
    Heap.Keeps h0 (Mem.populateStack h e fresh) ∧
      Heap.CauseOutside h0 (Mem.populateStack h e fresh) e := by
  have hk1 : Heap.Keeps h0 (h.update e (fun c => { c with callers := fresh })) :=
    hk.update e _ he
  have hc1 : Heap.CauseOutside h0 (h.update e (fun c => { c with callers := fresh })) e :=
    hc.update_same_err e _ (fun _ => rfl)
  unfold Mem.populateStack
  simp only []
  split
  · next ce hce =>
    split
    · next e2 he2 =>
      have hout : h0.length ≤ e2 := hc1 ce e2 hce he2
      split
      · next c2 hc2 =>
        rcases suffixLoop ce.callers c2.callers ce.callers.length 0 false with ⟨i, ok⟩
        simp only []
        split
        · refine ⟨(hk1.update e _ he).update e2 _ hout, ?_⟩
          refine Heap.CauseOutside.update_same_err ?_ e2 _ ?_
          · refine Heap.CauseOutside.update_same_err hc1 e _ ?_
            intro c
            rfl
          · intro c
            rfl
        · exact ⟨hk1, hc1⟩
      · exact ⟨hk1, hc1⟩
    · exact ⟨hk1, hc1⟩
  · exact ⟨hk1, hc1⟩

theorem Mem.dedup_inv (h0 h : Heap) (e : Nat)
    (hk : Heap.Keeps h0 h) (hc : Heap.CauseOutside h0 h e) :
    Heap.Keeps h0 (Mem.dedup h e) := by
  unfold Mem.dedup
  split
  · next ce hce =>
    split
    · next prev hprev =>
      have hout : h0.length ≤ prev := hc ce prev hce hprev
      have hk1 : Heap.Keeps h0
          (match h[prev]? with
            | some cp => if cp.message = ce.message then
                h.update prev (fun c => { c with message := "" }) else h
            | none => h) := by
        split
        · split
          · exact hk.update prev _ hout
          · exact hk
        · exact hk
      simp only []
      split
      · split
        · exact hk1.update prev _ hout
        · exact hk1
      · exact hk1
    · exact hk
  · exact hk

/-- C15: when `E` is given an `*HTTPError` argument `a`, the struct `a` points
to is left unchanged: `E` returns a freshly allocated error and every struct
that existed before the call, the one at `a` in particular, has the same kind,
message, err, params and callers after it; the kind, message and callers that
the dedup pass and the coalescing clear are those of the private copy. -/
theorem Mem.E_keeps_argument (h h2 : Heap) (args : List PtrArg) (fresh : List Nat) (e : Nat)
    (hE : Mem.E h args fresh = .ok (h2, e)) :
    e = h.length ∧ (∀ (b : Nat) (c : Cell), h[b]? = some c → h2[b]? = some c) ∧
      ∀ a : Nat, PtrArg.httpError (some a) ∈ args → a < h.length → h2[a]? = h[a]? := by
  unfold Mem.E at hE
  split at hE
  · simp at hE
  · simp only [] at hE
    split at hE
    · simp at hE
    · next h1 hassign =>
      simp only [Except.ok.injEq, Prod.mk.injEq] at hE
      obtain ⟨hh, he⟩ := hE
      have hk0 : Heap.Keeps h
          (h ++ [{ kind := 0, message := "", err := .nil, params := none, callers := [] }]) :=
        Heap.Keeps.append (fun _ _ hb => hb) _
      have hc0 : Heap.CauseOutside h
          (h ++ [{ kind := 0, message := "", err := .nil, params := none, callers := [] }])
          h.length := by
        intro ce c hce herr
        rw [List.getElem?_append_right (Nat.le_refl _)] at hce
        simp only [Nat.sub_self, List.getElem?_cons_zero, Option.some.injEq] at hce
        subst hce
        simp at herr
      obtain ⟨hk1, hc1⟩ := Mem.assignArgs_inv h h.length (Nat.le_refl _) args _ h1 hk0 hc0
        (by simp) hassign
      obtain ⟨hk2, hc2⟩ := Mem.populateStack_inv h h1 h.length fresh hk1 hc1 (Nat.le_refl _)
      have hk3 := Mem.dedup_inv h _ h.length hk2 hc2
      rw [hh] at hk3
      refine ⟨he.symm, hk3, ?_⟩
      intro a _ halt
      have hget : h[a]? = some h[a] := List.getElem?_eq_getElem halt
      rw [hget]
      exact hk3 a _ hget

theorem Mem.E_keeps_argument_witness :
    Mem.E [Cell.mk NotFound "missing" .nil none [7, 2, 3]]
        [.kind NotFound, .httpError (some 0), .message "missing"] [1, 2, 3] =
      .ok ([Cell.mk NotFound "missing" .nil none [7, 2, 3],
            Cell.mk NotFound "missing" (.ptr 2) none [7, 1, 2, 3],
            Cell.mk 0 "" .nil none []], 1) ∧
    [Cell.mk NotFound "missing" .nil none [7, 2, 3],
        Cell.mk NotFound "missing" (.ptr 2) none [7, 1, 2, 3],
        Cell.mk 0 "" .nil none []][0]? =
      [Cell.mk NotFound "missing" .nil none [7, 2, 3]][0]? :=
  ⟨rfl, (Mem.E_keeps_argument [Cell.mk NotFound "missing" .nil none [7, 2, 3]] _
    [.kind NotFound, .httpError (some 0), .message "missing"] [1, 2, 3] 1 rfl).2.2 0
      (by simp) (by simp)⟩

/-! ## The heap version of the builder computes the same error -/

theorem Heap.load_keeps (h0 h : Heap) (hk : Heap.Keeps h0 h) :
    ∀ (fuel : Nat) (r : ErrRef) (g : GoError), h0.load fuel r = some g → h.load fuel r = some g
  | _, .nil, g, hl => by simpa [Heap.load] using hl
  | _, .other t, g, hl => by simpa [Heap.load] using hl
  | 0, .ptr a, g, hl => by simp [Heap.load] at hl
  | fuel + 1, .ptr a, g, hl => by
    simp only [Heap.load] at hl ⊢
    cases hget : h0[a]? with
    | none => rw [hget] at hl; simp at hl
    | some c =>
      rw [hget] at hl
      rw [hk a c hget]
      simp only [] at hl ⊢
      cases hrec : h0.load fuel c.err with
      | none => rw [hrec] at hl; simp at hl
      | some g2 =>
        rw [hrec] at hl
        rw [Heap.load_keeps h0 h hk fuel c.err g2 hrec]
        exact hl

theorem Mem.Sim.load {h0 h : Heap} {m : Nat} {ev : HTTPError} (hsim : Mem.Sim h0 m h ev) :
    h.load (m + 2) (.ptr h0.length) = some (.http ev) := by
  obtain ⟨hk, ce, hce, ⟨h1, h2, h3, h4⟩, hcause⟩ := hsim
  cases ev with
  | mk k msg err ps cs =>
    simp only [kind_mk, message_mk, params_mk, callers_mk, err_mk] at h1 h2 h3 h4 hcause
    simp only [Heap.load, hce]
    cases hr : ce.err with
    | nil =>
      rw [hr] at hcause
      cases err <;> simp [Mem.CauseSim] at hcause
      simp [Heap.load, h1, h2, h3, h4]
    | other t =>
      rw [hr] at hcause
      cases err <;> simp [Mem.CauseSim] at hcause
      simp [Heap.load, h1, h2, h3, h4, hcause]
    | ptr c =>
      rw [hr] at hcause
      cases err with
      | nil => simp [Mem.CauseSim] at hcause
      | other t => simp [Mem.CauseSim] at hcause
      | http p =>
        simp only [Mem.CauseSim] at hcause
        obtain ⟨_, cc, hcc, ⟨p1, p2, p3, p4⟩, hload⟩ := hcause
        have hload2 := Heap.load_keeps h0 h hk m cc.err p.err hload
        cases p with
        | mk pk pm perr pps pcs =>
          simp only [kind_mk, message_mk, params_mk, callers_mk, err_mk] at p1 p2 p3 p4 hload2
          simp [Heap.load, hcc, hload2, h1, h2, h3, h4, p1, p2, p3, p4]

theorem Mem.CauseSim.update_low {h0 h : Heap} {m : Nat} {r : ErrRef} {g : GoError}
    (hc : Mem.CauseSim h0 m h r g) (a : Nat) (f : Cell → Cell) (ha : a ≤ h0.length) :
    Mem.CauseSim h0 m (h.update a f) r g := by
  cases r <;> cases g <;> simp only [Mem.CauseSim] at hc ⊢ <;> try exact hc
  obtain ⟨hlt, cc, hcc, hrest⟩ := hc
  refine ⟨hlt, cc, ?_, hrest⟩
  rw [Heap.update_get_ne h a _ f (by omega)]
  exact hcc

theorem Mem.CauseSim.append_cell {h0 h : Heap} {m : Nat} {r : ErrRef} {g : GoError}
    (hc : Mem.CauseSim h0 m h r g) (cell : Cell) : Mem.CauseSim h0 m (h ++ [cell]) r g := by
  cases r <;> cases g <;> simp only [Mem.CauseSim] at hc ⊢ <;> try exact hc
  obtain ⟨hlt, cc, hcc, hrest⟩ := hc
  refine ⟨hlt, cc, ?_, hrest⟩
  rw [List.getElem?_append_left (List.getElem?_eq_some.mp hcc).1]
  exact hcc

theorem Mem.Sim.update_self {h0 h : Heap} {m : Nat} {ev : HTTPError}
    (hsim : Mem.Sim h0 m h ev) (f : Cell → Cell) (ev2 : HTTPError)
    (hferr : ∀ c, (f c).err = c.err) (herr : ev2.err = ev.err)
    (hholds : ∀ c : Cell, c.Holds ev → (f c).Holds ev2) :
    Mem.Sim h0 m (h.update h0.length f) ev2 := by
  obtain ⟨hk, ce, hce, hh, hcause⟩ := hsim
  refine ⟨hk.update _ f (Nat.le_refl _), f ce, ?_, hholds ce hh, ?_⟩
  · rw [Heap.update_get_self, hce]
    rfl
  · rw [hferr, herr]
    exact hcause.update_low _ f (Nat.le_refl _)

theorem Mem.Sim.update_cause {h0 h : Heap} {m : Nat} {ev : HTTPError}
    (hsim : Mem.Sim h0 m h ev) (r : ErrRef) (g : GoError) (hc : Mem.CauseSim h0 m h r g) :
    Mem.Sim h0 m (h.update h0.length (fun c => { c with err := r }))
      (.mk ev.kind ev.message g ev.params ev.callers) := by
  obtain ⟨hk, ce, hce, hh, _⟩ := hsim
  refine ⟨hk.update _ _ (Nat.le_refl _), { ce with err := r }, ?_, hh, ?_⟩
  · rw [Heap.update_get_self, hce]
    rfl
  · exact hc.update_low _ _ (Nat.le_refl _)

theorem Mem.Sim.alloc {h0 h : Heap} {m : Nat} {ev : HTTPError}
    (hsim : Mem.Sim h0 m h ev) (cell : Cell) : Mem.Sim h0 m (h ++ [cell]) ev := by
  obtain ⟨hk, ce, hce, hh, hcause⟩ := hsim
  refine ⟨hk.append cell, ce, ?_, hh, hcause.append_cell cell⟩
  rw [List.getElem?_append_left (List.getElem?_eq_some.mp hce).1]
  exact hce

theorem Mem.Sim.cause_inv {h0 h : Heap} {m : Nat} {ev : HTTPError}
    (hsim : Mem.Sim h0 m h ev) (ce : Cell) (hce : h[h0.length]? = some ce) :
    ce.Holds ev ∧ Mem.CauseSim h0 m h ce.err ev.err := by
  obtain ⟨_, ce2, hce2, hh, hcause⟩ := hsim
  rw [hce] at hce2
  cases Option.some.inj hce2
  exact ⟨hh, hcause⟩

theorem Mem.Sim.update_copy {h0 h : Heap} {m : Nat} {ev : HTTPError}
    (hsim : Mem.Sim h0 m h ev) (ce : Cell) (c : Nat) (p p2 : HTTPError) (f : Cell → Cell)
    (hce : h[h0.length]? = some ce) (hptr : ce.err = .ptr c) (hev : ev.err = .http p)
    (hferr : ∀ x, (f x).err = x.err) (hp2 : p2.err = p.err)
    (hholds : ∀ x : Cell, x.Holds p → (f x).Holds p2) :
    Mem.Sim h0 m (h.update c f) (.mk ev.kind ev.message (.http p2) ev.params ev.callers) := by
  obtain ⟨hh, hcause⟩ := hsim.cause_inv ce hce
  rw [hptr, hev] at hcause
  simp only [Mem.CauseSim] at hcause
  obtain ⟨hlt, cc, hcc, hcp, hload⟩ := hcause
  refine ⟨hsim.1.update c f (by omega), ce, ?_, hh, ?_⟩
  · rw [Heap.update_get_ne h c _ f (by omega)]
    exact hce
  · rw [hptr]
    simp only [err_mk, Mem.CauseSim]
    refine ⟨hlt, f cc, ?_, hholds cc hcp, ?_⟩
    · rw [Heap.update_get_self, hcc]
      rfl
    · rw [hferr, hp2]
      exact hload

theorem PtrArg.load_httpError {h0 : Heap} {m a : Nat} {varg : Arg}
    (hload : PtrArg.load h0 (m + 1) (.httpError (some a)) = some varg) :
    ∃ (c0 : Cell) (g : GoError), h0[a]? = some c0 ∧ h0.load m c0.err = some g ∧
      varg = .httpError (some (.mk c0.kind c0.message g c0.params c0.callers)) := by
  simp only [PtrArg.load, Heap.load] at hload
  cases hget : h0[a]? with
  | none => rw [hget] at hload; simp at hload
  | some c0 =>
    rw [hget] at hload
    simp only [] at hload
    cases hrec : h0.load m c0.err with
    | none => rw [hrec] at hload; simp at hload
    | some g =>
      rw [hrec] at hload
      simp only [Option.some.injEq] at hload
      exact ⟨c0, g, rfl, hrec, hload.symm⟩

theorem Mem.assignArg_sim (h0 h : Heap) (m : Nat) (ev : HTTPError) (parg : PtrArg) (varg : Arg)
    (hsim : Mem.Sim h0 m h ev) (hload : PtrArg.load h0 (m + 1) parg = some varg) :
    (∃ h1 ev1, Mem.assignArg h h0.length parg = .ok h1 ∧ errs.assignArg ev varg = .ok ev1 ∧
        Mem.Sim h0 m h1 ev1) ∨
      ∃ msg, Mem.assignArg h h0.length parg = .error msg ∧ errs.assignArg ev varg = .error msg := by
  cases parg with
  | message a =>
    simp only [PtrArg.load, Option.some.injEq] at hload
    subst hload
    left
    refine ⟨_, _, rfl, rfl, hsim.update_self _ _ (fun _ => rfl) rfl ?_⟩
    intro c hc
    exact ⟨hc.1, rfl, hc.2.2.1, hc.2.2.2⟩
  | kind a =>
    simp only [PtrArg.load, Option.some.injEq] at hload
    subst hload
    left
    refine ⟨_, _, rfl, rfl, hsim.update_self _ _ (fun _ => rfl) rfl ?_⟩
    intro c hc
    exact ⟨rfl, hc.2.1, hc.2.2.1, hc.2.2.2⟩
  | params a =>
    simp only [PtrArg.load, Option.some.injEq] at hload
    subst hload
    left
    refine ⟨_, _, rfl, rfl, hsim.update_self _ _ (fun _ => rfl) rfl ?_⟩
    intro c hc
    exact ⟨hc.1, hc.2.1, rfl, hc.2.2.2⟩
  | error t =>
    simp only [PtrArg.load, Option.some.injEq] at hload
    subst hload
    left
    exact ⟨_, _, rfl, rfl, hsim.update_cause (.other t) (.other t) rfl⟩
  | nil =>
    simp only [PtrArg.load, Option.some.injEq] at hload
    subst hload
    right
    exact ⟨_, rfl, rfl⟩
  | httpError p =>
    cases p with
    | none =>
      simp only [PtrArg.load, Option.some.injEq] at hload
      subst hload
      right
      exact ⟨_, rfl, rfl⟩
    | some a =>
      obtain ⟨c0, g, hget, hrec, hv⟩ := PtrArg.load_httpError hload
      subst hv
      left
      obtain ⟨ce, hce, _⟩ := hsim.2
      have hlt : h0.length < h.length := (List.getElem?_eq_some.mp hce).1
      have hcs : Mem.CauseSim h0 m (h ++ [c0]) (.ptr h.length)
          (.http (.mk c0.kind c0.message g c0.params c0.callers)) := by
        simp only [Mem.CauseSim]
        refine ⟨hlt, c0, ?_, ⟨rfl, rfl, rfl, rfl⟩, hrec⟩
        rw [List.getElem?_append_right (Nat.le_refl _)]
        simp
      refine ⟨_, _, ?_, rfl, (hsim.alloc c0).update_cause _ _ hcs⟩
      simp only [Mem.assignArg, hsim.1 a c0 hget]

theorem Mem.assignArgs_sim (h0 : Heap) (m : Nat) :
    ∀ (args : List PtrArg) (vargs : List Arg) (h : Heap) (ev : HTTPError),
      List.Forall₂ (fun pa va => PtrArg.load h0 (m + 1) pa = some va) args vargs →
      Mem.Sim h0 m h ev →
      (∃ h1 ev1, Mem.assignArgs h h0.length args = .ok h1 ∧ errs.assignArgs ev vargs = .ok ev1 ∧
          Mem.Sim h0 m h1 ev1) ∨
        ∃ msg, Mem.assignArgs h h0.length args = .error msg ∧
          errs.assignArgs ev vargs = .error msg := by
  intro args vargs h ev hall
  induction hall generalizing h ev with
  | nil =>
    intro hsim
    exact Or.inl ⟨h, ev, rfl, rfl, hsim⟩
  | cons hhead _ ih =>
    intro hsim
    rcases Mem.assignArg_sim h0 h m ev _ _ hsim hhead with
      ⟨h1, ev1, hm1, hv1, hsim1⟩ | ⟨msg, hm1, hv1⟩
    · simp only [Mem.assignArgs, errs.assignArgs, hm1, hv1]
      exact ih h1 ev1 hsim1
    · right
      exact ⟨msg, by simp [Mem.assignArgs, hm1], by simp [errs.assignArgs, hv1]⟩

theorem Mem.populateStack_sim (h0 h : Heap) (m : Nat) (ev : HTTPError) (fresh : List Nat)
    (hsim : Mem.Sim h0 m h ev) :
    Mem.Sim h0 m (Mem.populateStack h h0.length fresh) (ev.populateStack fresh) := by
  cases ev with
  | mk k msg err ps cs =>
    have hsim1 : Mem.Sim h0 m (h.update h0.length (fun c => { c with callers := fresh }))
        (.mk k msg err ps fresh) := by
      refine hsim.update_self _ _ (fun _ => rfl) rfl ?_
      intro c hc
      exact ⟨hc.1, hc.2.1, hc.2.2.1, rfl⟩
    obtain ⟨ce1, hce1, _⟩ := hsim1.2
    obtain ⟨hh1, hcause1⟩ := hsim1.cause_inv ce1 hce1
    simp only [err_mk] at hcause1
    simp only [Mem.populateStack, hce1]
    cases hr : ce1.err with
    | nil =>
      rw [hr] at hcause1
      cases err <;> simp only [Mem.CauseSim] at hcause1
      exact hsim1
    | other t =>
      rw [hr] at hcause1
      cases err <;> simp only [Mem.CauseSim] at hcause1
      exact hsim1
    | ptr e2 =>
      rw [hr] at hcause1
      cases err with
      | nil => simp only [Mem.CauseSim] at hcause1
      | other t => simp only [Mem.CauseSim] at hcause1
      | http p =>
        simp only [Mem.CauseSim] at hcause1
        obtain ⟨hlt, cc, hcc, hcp, hload⟩ := hcause1
        cases p with
        | mk k2 m2 err2 ps2 cs2 =>
          have hcs1 : ce1.callers = fresh := hh1.2.2.2
          have hcs2 : cc.callers = cs2 := hcp.2.2.2
          simp only [hcc, hcs1, hcs2, HTTPError.populateStack]
          rcases suffixLoop fresh cs2 fresh.length 0 false with ⟨i, ok⟩
          cases ok with
          | false => exact hsim1
          | true =>
            simp only [↓reduceIte]
            have hsim2 : Mem.Sim h0 m
                ((h.update h0.length (fun c => { c with callers := fresh })).update h0.length
                  (fun c => { c with callers := cs2.take (cs2.length - i) ++ fresh }))
                (.mk k msg (.http (.mk k2 m2 err2 ps2 cs2)) ps
                  (cs2.take (cs2.length - i) ++ fresh)) := by
              refine hsim1.update_self _ _ (fun _ => rfl) rfl ?_
              intro c hc
              exact ⟨hc.1, hc.2.1, hc.2.2.1, rfl⟩
            obtain ⟨ce2, hce2, _⟩ := hsim2.2
            have hptr2 : ce2.err = .ptr e2 := by
              rw [Heap.update_get_self, hce1] at hce2
              simp only [Option.map_some', Option.some.injEq] at hce2
              rw [← hce2]
              exact hr
            have hfin := hsim2.update_copy ce2 e2 (.mk k2 m2 err2 ps2 cs2) (.mk k2 m2 err2 ps2 [])
              (fun c => { c with callers := [] }) hce2 hptr2 rfl (fun _ => rfl) rfl
              (fun x hx => ⟨hx.1, hx.2.1, hx.2.2.1, rfl⟩)
            exact hfin

theorem Mem.dedup_sim (h0 h : Heap) (m : Nat) (ev : HTTPError) (hsim : Mem.Sim h0 m h ev) :
    Mem.Sim h0 m (Mem.dedup h h0.length) (errs.dedup ev) := by
  obtain ⟨ce, hce, _⟩ := hsim.2
  obtain ⟨hh, hcause⟩ := hsim.cause_inv ce hce
  simp only [Mem.dedup, hce]
  cases hr : ce.err with
  | nil =>
    rw [hr] at hcause
    cases herr : ev.err <;> rw [herr] at hcause <;> simp only [Mem.CauseSim] at hcause
    rw [dedup_not_http ev (by intro prev; rw [herr]; simp)]
    exact hsim
  | other t =>
    rw [hr] at hcause
    cases herr : ev.err <;> rw [herr] at hcause <;> simp only [Mem.CauseSim] at hcause
    rw [dedup_not_http ev (by intro prev; rw [herr]; simp)]
    exact hsim
  | ptr prev =>
    rw [hr] at hcause
    cases herr : ev.err with
    | nil => rw [herr] at hcause; simp only [Mem.CauseSim] at hcause
    | other t => rw [herr] at hcause; simp only [Mem.CauseSim] at hcause
    | http p =>
      rw [herr] at hcause
      simp only [Mem.CauseSim] at hcause
      obtain ⟨hlt, cc, hcc, hcp, hload⟩ := hcause
      rw [dedup_http ev p herr]
      simp only [hcc]
      have hmsg : (cc.message = ce.message) ↔ (p.message = ev.message) := by
        rw [hcp.2.1, hh.2.1]
      have hkind : (cc.kind = ce.kind) ↔ (p.kind = ev.kind) := by
        rw [hcp.1, hh.1]
      have hsimA : Mem.Sim h0 m
          (if cc.message = ce.message then
            h.update prev (fun c => { c with message := "" }) else h)
          (.mk ev.kind ev.message
            (.http (.mk p.kind (if p.message = ev.message then "" else p.message)
              p.err p.params p.callers)) ev.params ev.callers) := by
        by_cases hm : p.message = ev.message
        · rw [if_pos (hmsg.mpr hm), if_pos hm]
          exact hsim.update_copy ce prev p _ _ hce hr herr (fun _ => rfl) rfl
            (fun x hx => ⟨hx.1, rfl, hx.2.2.1, hx.2.2.2⟩)
        · rw [if_neg (fun hc => hm (hmsg.mp hc)), if_neg hm]
          have hev : ev = .mk ev.kind ev.message
              (.http (.mk p.kind p.message p.err p.params p.callers)) ev.params ev.callers := by
            rw [mk_eta p, ← herr, mk_eta ev]
          rw [← hev]
          exact hsim
      obtain ⟨ceA, hceA, _⟩ := hsimA.2
      obtain ⟨hhA, hcauseA⟩ := hsimA.cause_inv ceA hceA
      have hceqA : ceA = ce := by
        by_cases hm : cc.message = ce.message
        · rw [if_pos hm, Heap.update_get_ne h prev _ _ (by omega), hce] at hceA
          exact (Option.some.inj hceA).symm
        · rw [if_neg hm, hce] at hceA
          exact (Option.some.inj hceA).symm
      subst hceqA
      rw [hr] at hcauseA
      simp only [err_mk, Mem.CauseSim] at hcauseA
      obtain ⟨_, ccA, hccA, hcpA, _⟩ := hcauseA
      rw [hccA]
      simp only []
      have hkindA : (ccA.kind = ceA.kind) ↔ (p.kind = ev.kind) := by
        rw [hcpA.1, hh.1]
        simp
      by_cases hk : p.kind = ev.kind
      · rw [if_pos (hkindA.mpr hk), if_pos hk]
        have hfin := hsimA.update_copy ceA prev _
          (.mk 0 (if p.message = ev.message then "" else p.message) p.err p.params p.callers)
          (fun c => { c with kind := 0 }) hceA hr rfl (fun _ => rfl) rfl
          (fun x hx => ⟨rfl, hx.2.1, hx.2.2.1, hx.2.2.2⟩)
        exact hfin
      · rw [if_neg (fun hc => hk (hkindA.mp hc)), if_neg hk]
        exact hsimA

/-- The heap version and the value version of `E` are the same program: on
arguments in memory that denote the arguments `vargs`, either both panic, with
the same message, or both return, and the chain read out of the final heap at
the returned address is the value returned by `E`. -/
theorem Mem.E_refines (h0 : Heap) (m : Nat) (args : List PtrArg) (vargs : List Arg)
    (fresh : List Nat)
    (hall : List.Forall₂ (fun pa va => PtrArg.load h0 (m + 1) pa = some va) args vargs) :
    (∃ h2 v, Mem.E h0 args fresh = .ok (h2, h0.length) ∧ errs.E vargs fresh = .ok v ∧
        h2.load (m + 2) (.ptr h0.length) = some (.http v)) ∨
      ∃ msg, Mem.E h0 args fresh = .error msg ∧ errs.E vargs fresh = .error msg := by
  have hlen : args.length = vargs.length := hall.length_eq
  unfold Mem.E errs.E
  by_cases h0len : args.length = 0
  · right
    rw [if_pos h0len, if_pos (hlen ▸ h0len)]
    exact ⟨_, rfl, rfl⟩
  · rw [if_neg h0len, if_neg (hlen ▸ h0len)]
    have hinit : Mem.Sim h0 m
        (h0 ++ [{ kind := 0, message := "", err := .nil, params := none, callers := [] }])
        (.mk 0 "" .nil none []) := by
      refine ⟨Heap.Keeps.append (fun _ _ hb => hb) _,
        { kind := 0, message := "", err := .nil, params := none, callers := [] }, ?_,
        ⟨rfl, rfl, rfl, rfl⟩, ?_⟩
      · rw [List.getElem?_append_right (Nat.le_refl _)]
        simp
      · simp [Mem.CauseSim]
    rcases Mem.assignArgs_sim h0 m args vargs _ _ hall hinit with
      ⟨h1, ev1, hm1, hv1, hsim1⟩ | ⟨msg, hm1, hv1⟩
    · left
      simp only [hm1, hv1]
      have hsim2 := Mem.populateStack_sim h0 h1 m ev1 fresh hsim1
      have hsim3 := Mem.dedup_sim h0 _ m _ hsim2
      exact ⟨_, _, rfl, rfl, hsim3.load⟩
    · right
      simp only [hm1, hv1]
      exact ⟨msg, rfl, rfl⟩

end errs
